import Mathlib

/-!
U-DCCP converter (`dccp_udp_converter.c`): embedding and verification

The two netfilter hooks `dccp_hook` (DCCP to UDP-shaped) and `udp_hook`
(UDP-shaped back to DCCP) are embedded as pure functions on a packet buffer.

Modelling conventions

* The buffer `skb->data .. skb->data + skb->len` is a list of bytes (`Nat`, each below 256 in
  a well-formed packet).  Header pointers are offsets into that list; a NULL pointer is `none`.
  The hook functions take a non-NULL `skb`.  In the IPv4 netfilter hooks the IP header starts
  the buffer and the transport header follows its `4 * ihl` bytes; `WellFormed` records this.
* A load from an offset outside the buffer reads 0 and a store to such an offset is dropped
  (the code would touch memory behind the packet, which is not part of the packet).
  `HeaderInside` asks that the ten header bytes the hooks access lie inside the buffer.
* Multi-byte fields are read and written in network byte order, so `ntohs`/`htons` of a
  `__be16` field is the big-endian value of its two bytes.
* Bit-fields of `struct dccp_hdr` follow the wire layout of RFC 4340 (which both the
  little-endian and the big-endian declaration of `<linux/dccp.h>` produce); the two nibbles of
  `struct dccp_ccval_type` follow the declaration in the source file.
* The kernel checksum primitives (`skb_checksum`, `csum_tcpudp_magic`, `ip_fast_csum`,
  `csum_fold`) are the generic 32-bit ones-complement accumulators of `lib/checksum.c`,
  expressed over network-order 16-bit words.
* The module-level scratch variables `csum_u`, `csum_d`, `csum_v` are threaded through the
  hooks as explicit state.
-/

namespace UDccp

/-! ## Constants -/

def NF_DROP : Nat := 0
def NF_ACCEPT : Nat := 1
def IPPROTO_UDP : Nat := 17
def IPPROTO_DCCP : Nat := 33
def CHECKSUM_UNNECESSARY : Nat := 1
def CHECKSUM_PARTIAL : Nat := 3

/-! ## Module parameters and the port gate -/

/-- Module parameters `srv_port` and `port_num` (both `u16`; defaults 1337 and 1). -/
structure Config where
  srv_port : Nat
  port_num : Nat
deriving DecidableEq, Repr

/-- The module defaults. -/
def defaultConfig : Config := ⟨1337, 1⟩

/-- Macro `PORT_IN_RANGE(port)`: the operands are promoted to `int`, so the sum does not wrap. -/
def PORT_IN_RANGE (cfg : Config) (port : Nat) : Bool :=
  decide (port ≥ cfg.srv_port) && decide (port < cfg.srv_port + cfg.port_num)

/-! ## Packet buffer -/

/-- The part of `struct sk_buff` the hooks use. -/
structure SkBuff where
  /-- Bytes from `skb->data` to `skb->data + skb->len` (paged fragments included). -/
  data : List Nat
  /-- Offset of `skb_network_header(skb)` from `skb->data`; `none` is a NULL pointer. -/
  network_header : Option Nat
  /-- Offset of `skb_transport_header(skb)` from `skb->data`; `none` is a NULL pointer. -/
  transport_header : Option Nat
  /-- Result of `skb_is_nonlinear(skb)`. -/
  nonlinear : Bool
  /-- Whether `skb_linearize(skb)` would fail (returns non-zero) on this buffer. -/
  linearize_fails : Bool
  /-- Field `skb->ip_summed`. -/
  ip_summed : Nat
  /-- Field `skb->csum_valid`. -/
  csum_valid : Bool
  /-- Value of `skb_checksum_start_offset(skb)`. -/
  csum_start_offset : Int
deriving DecidableEq, Repr

/-- The scratch variables `csum_u`, `csum_d`, `csum_v` declared at module level. -/
structure Globals where
  csum_u : Nat
  csum_d : Nat
  csum_v : Nat
deriving DecidableEq, Repr

/-- Outcome of one hook invocation: verdict, buffer, scratch variables. -/
structure HookResult where
  verdict : Nat
  skb : SkBuff
  globals : Globals
deriving DecidableEq, Repr

/-- Field `skb->len`. -/
def skb_len (skb : SkBuff) : Nat := skb.data.length

/-- Helper `skb_network_header(skb)`, the IP header pointer. -/
def skb_network_header (skb : SkBuff) : Option Nat := skb.network_header

/-- Helper `dccp_hdr(skb)`, the transport header pointer. -/
def dccp_hdr (skb : SkBuff) : Option Nat := skb.transport_header

/-- Helper `skb_is_nonlinear(skb)`: part of the data lives in paged fragments. -/
def skb_is_nonlinear (skb : SkBuff) : Bool := skb.nonlinear

/-- A successful `skb_linearize`: same bytes, now contiguous. -/
def skb_linearize (skb : SkBuff) : SkBuff := { skb with nonlinear := false }

/-- Helper `skb_csum_unnecessary(skb)` of `<linux/skbuff.h>`: a lower layer has already
certified the transport checksum. -/
def skb_csum_unnecessary (skb : SkBuff) : Bool :=
  decide (skb.ip_summed = CHECKSUM_UNNECESSARY) || skb.csum_valid ||
    (decide (skb.ip_summed = CHECKSUM_PARTIAL) && decide (0 ≤ skb.csum_start_offset))

/-! ## Byte access -/

/-- Read the byte at offset `i`. -/
def rd (d : List Nat) (i : Nat) : Nat := d.getD i 0

/-- Store byte `v` at offset `i`. -/
def wr (d : List Nat) (i v : Nat) : List Nat := d.set i v

/-- Read a 16-bit field in network byte order. -/
def rd16 (d : List Nat) (i : Nat) : Nat := rd d i * 256 + rd d (i + 1)

/-- Store the low 16 bits of `v` in network byte order. -/
def wr16 (d : List Nat) (i v : Nat) : List Nat :=
  wr (wr d i (v / 256 % 256)) (i + 1) (v % 256)

/-- Read a 32-bit field in network byte order. -/
def rd32 (d : List Nat) (i : Nat) : Nat :=
  ((rd d i * 256 + rd d (i + 1)) * 256 + rd d (i + 2)) * 256 + rd d (i + 3)

/-- Subtraction of `unsigned int` values. -/
def u32sub (a b : Nat) : Nat := (a + 4294967296 - b % 4294967296) % 4294967296

/-! ## IP header fields (`struct iphdr` at offset `iph`) -/

def iph_ihl (d : List Nat) (iph : Nat) : Nat := rd d iph % 16
def iph_protocol (d : List Nat) (iph : Nat) : Nat := rd d (iph + 9)
def iph_check (d : List Nat) (iph : Nat) : Nat := rd16 d (iph + 10)
def iph_saddr (d : List Nat) (iph : Nat) : Nat := rd32 d (iph + 12)
def iph_daddr (d : List Nat) (iph : Nat) : Nat := rd32 d (iph + 16)

/-! ## DCCP header fields (`struct dccp_hdr` at offset `dh`) -/

def dccph_sport (d : List Nat) (dh : Nat) : Nat := rd16 d dh
def dccph_dport (d : List Nat) (dh : Nat) : Nat := rd16 d (dh + 2)
def dccph_doff (d : List Nat) (dh : Nat) : Nat := rd d (dh + 4)
def dccph_ccval (d : List Nat) (dh : Nat) : Nat := rd d (dh + 5) / 16 % 16
def dccph_cscov (d : List Nat) (dh : Nat) : Nat := rd d (dh + 5) % 16
def dccph_checksum (d : List Nat) (dh : Nat) : Nat := rd16 d (dh + 6)
def dccph_reserved (d : List Nat) (dh : Nat) : Nat := rd d (dh + 8) / 32 % 8
def dccph_type (d : List Nat) (dh : Nat) : Nat := rd d (dh + 8) / 2 % 16
def dccph_x (d : List Nat) (dh : Nat) : Nat := rd d (dh + 8) % 2
def dccph_seq2 (d : List Nat) (dh : Nat) : Nat := rd d (dh + 9)

def set_dccph_ccval (d : List Nat) (dh v : Nat) : List Nat :=
  wr d (dh + 5) (v % 16 * 16 + rd d (dh + 5) % 16)
def set_dccph_cscov (d : List Nat) (dh v : Nat) : List Nat :=
  wr d (dh + 5) (rd d (dh + 5) / 16 % 16 * 16 + v % 16)
def set_dccph_type (d : List Nat) (dh v : Nat) : List Nat :=
  wr d (dh + 8) (rd d (dh + 8) / 32 % 8 * 32 + v % 16 * 2 + rd d (dh + 8) % 2)
def set_dccph_reserved (d : List Nat) (dh v : Nat) : List Nat :=
  wr d (dh + 8) (v % 8 * 32 + rd d (dh + 8) % 32)
def set_dccph_x (d : List Nat) (dh v : Nat) : List Nat :=
  wr d (dh + 8) (rd d (dh + 8) / 2 % 128 * 2 + v % 2)

/-! ## `struct dccp_ccval_type` overlaid on the byte at `dh + 8`

Little-endian bit-fields `type:4, ccval:4` put `type` in the low nibble and `ccval` in the
high nibble; the big-endian declaration `ccval:4, type:4` gives the same byte. -/

def ccval_type_type (d : List Nat) (dh : Nat) : Nat := rd d (dh + 8) % 16
def ccval_type_ccval (d : List Nat) (dh : Nat) : Nat := rd d (dh + 8) / 16 % 16
def mk_ccval_type (type ccval : Nat) : Nat := ccval % 16 * 16 + type % 16

/-! ## Checksum primitives -/

/-- Ones-complement addition of two 32-bit accumulators (add, then add the carry back). -/
def csum_add (a b : Nat) : Nat := (a + b) % 4294967296 + (a + b) / 4294967296

/-- Kernel `csum_partial(buff, len, sum)` on the bytes of `buff`: accumulate the 16-bit words;
an odd trailing byte is padded with zero. -/
def csum_partial_bytes : List Nat → Nat → Nat
  | [], sum => sum
  | [a], sum => csum_add sum (a * 256)
  | a :: b :: rest, sum => csum_partial_bytes rest (csum_add sum (a * 256 + b))

/-- Kernel `skb_checksum(skb, offset, len, csum)` over the buffer contents. -/
def skb_checksum (d : List Nat) (offset len csum : Nat) : Nat :=
  csum_partial_bytes ((d.drop offset).take len) csum

/-- Kernel `csum_fold`: fold a 32-bit accumulator to 16 bits and complement. -/
def csum_fold (csum : Nat) : Nat :=
  let sum := csum % 4294967296
  let sum := sum % 65536 + sum / 65536
  let sum := sum % 65536 + sum / 65536
  65535 - sum % 65536

/-- Kernel `from64to32`. -/
def from64to32 (x : Nat) : Nat :=
  let x := x % 18446744073709551616
  let x := x % 4294967296 + x / 4294967296
  let x := x % 4294967296 + x / 4294967296
  x % 4294967296

/-- Kernel `csum_tcpudp_nofold`: the accumulator, both addresses and the 32-bit sum
`proto + len` added in 64 bits, then folded to 32 bits. -/
def csum_tcpudp_nofold (saddr daddr len proto sum : Nat) : Nat :=
  from64to32 (sum % 4294967296 + saddr % 4294967296 + daddr % 4294967296
    + (proto % 256 + len % 4294967296) % 4294967296)

/-- Kernel `csum_tcpudp_magic`: the folded, complemented pseudo-header checksum. -/
def csum_tcpudp_magic (saddr daddr len proto sum : Nat) : Nat :=
  csum_fold (csum_tcpudp_nofold saddr daddr len proto sum)

/-- Kernel `ip_fast_csum(iph, ihl)`: complemented folded sum of the `4*ihl` header bytes. -/
def ip_fast_csum (d : List Nat) (iph ihl : Nat) : Nat :=
  csum_fold (csum_partial_bytes ((d.drop iph).take (ihl * 4)) 0)

/-! ## The conversions -/

/-- Lines 174-203 of `dccp_hook`: the DCCP to UDP rewrite.  Returns the new bytes and the
value left in `csum_d`. -/
def dccp_to_udp (d : List Nat) (iph dh len : Nat) : List Nat × Nat :=
  -- shift CCVal and Type header field to the ninth octet
  let d := wr d (dh + 8) (mk_ccval_type (dccph_type d dh) (dccph_ccval d dh))
  -- shift Data Offset header field to the tenth octet
  let d := wr d (dh + 9) (dccph_doff d dh)
  -- replace original dccp Data Offset header field with the UDP length
  let d := wr16 d (dh + 4) (u32sub len (iph_ihl d iph * 4))
  -- set ip header protocol field to UDP
  let d := wr d (iph + 9) IPPROTO_UDP
  -- re-calculate ip header checksum
  let d := wr16 d (iph + 10) 0
  let d := wr16 d (iph + 10) (ip_fast_csum d iph (iph_ihl d iph))
  -- reset dccp checksum
  let d := wr16 d (dh + 6) 0
  -- build checksum over header and payload
  let csum_d := skb_checksum d dh (u32sub len (iph_ihl d iph * 4)) 0
  -- build checksum over the UDP pseudo header and csum
  let d := wr16 d (dh + 6)
    (csum_tcpudp_magic (iph_saddr d iph) (iph_daddr d iph)
      (u32sub len (iph_ihl d iph * 4)) IPPROTO_UDP csum_d)
  (d, csum_d)

/-- Lines 271-312 of `udp_hook`: the UDP to DCCP rewrite.  Returns the new bytes and the
value left in `csum_u`. -/
def udp_to_dccp (d : List Nat) (iph dh len : Nat) : List Nat × Nat :=
  -- restore Data Offset field
  let d := wr d (dh + 4) (dccph_seq2 d dh)
  -- restore CCVal field
  let d := set_dccph_ccval d dh (ccval_type_ccval d dh)
  let d := set_dccph_cscov d dh 0
  -- restore Type field
  let d := set_dccph_type d dh (ccval_type_type d dh)
  let d := set_dccph_reserved d dh 0
  let d := wr d (dh + 9) 0
  let d := set_dccph_x d dh 1
  -- set ip header protocol field to DCCP
  let d := wr d (iph + 9) IPPROTO_DCCP
  -- reset udp checksum
  let d := wr16 d (dh + 6) 0
  let csum_u := skb_checksum d dh (u32sub len (iph_ihl d iph * 4)) 0
  -- build checksum over the DCCP pseudo header and csum
  let d := wr16 d (dh + 6)
    (csum_tcpudp_magic (iph_saddr d iph) (iph_daddr d iph)
      (u32sub len (iph_ihl d iph * 4)) IPPROTO_DCCP csum_u)
  (d, csum_u)

/-- The port test shared by both hooks: true when neither port is in range. -/
def ports_out_of_range (cfg : Config) (d : List Nat) (dh : Nat) : Bool :=
  !PORT_IN_RANGE cfg (dccph_sport d dh) && !PORT_IN_RANGE cfg (dccph_dport d dh)

/-- Function `dccp_hook` (post-routing): convert an eligible DCCP packet to UDP shape. -/
def dccp_hook (cfg : Config) (g : Globals) (skb : SkBuff) : HookResult :=
  match skb_network_header skb with
  | none => ⟨NF_ACCEPT, skb, g⟩
  | some iph =>
    if iph_protocol skb.data iph = IPPROTO_DCCP then
      match dccp_hdr skb with
      | none => ⟨NF_ACCEPT, skb, g⟩
      | some dh =>
        if dccph_x skb.data dh = 0 then ⟨NF_ACCEPT, skb, g⟩
        else if ports_out_of_range cfg skb.data dh then ⟨NF_ACCEPT, skb, g⟩
        else
          let r := dccp_to_udp skb.data iph dh (skb_len skb)
          ⟨NF_ACCEPT, { skb with data := r.1 }, { g with csum_d := r.2 }⟩
    else ⟨NF_ACCEPT, skb, g⟩

/-- Function `udp_hook` (pre-routing): validate and convert a UDP-shaped packet back. -/
def udp_hook (cfg : Config) (g : Globals) (skb : SkBuff) : HookResult :=
  match skb_network_header skb with
  | none => ⟨NF_ACCEPT, skb, g⟩
  | some iph =>
    if iph_protocol skb.data iph = IPPROTO_UDP then
      match dccp_hdr skb with
      | none => ⟨NF_ACCEPT, skb, g⟩
      | some dh =>
        if ports_out_of_range cfg skb.data dh then ⟨NF_ACCEPT, skb, g⟩
        else if skb_is_nonlinear skb && skb.linearize_fails then ⟨NF_DROP, skb, g⟩
        else
          let skb := if skb_is_nonlinear skb then skb_linearize skb else skb
          -- header pointers are read again; the offsets are those found above
          if !skb_csum_unnecessary skb then
            let csum_v := skb_checksum skb.data dh
              (u32sub (skb_len skb) (iph_ihl skb.data iph * 4)) 0
            if csum_tcpudp_magic (iph_saddr skb.data iph) (iph_daddr skb.data iph)
                (u32sub (skb_len skb) (iph_ihl skb.data iph * 4)) IPPROTO_UDP csum_v ≠ 0 then
              ⟨NF_DROP, skb, { g with csum_v := csum_v }⟩
            else
              let skb := { skb with ip_summed := 1 }
              let r := udp_to_dccp skb.data iph dh (skb_len skb)
              ⟨NF_ACCEPT, { skb with data := r.1 }, { g with csum_v := csum_v, csum_u := r.2 }⟩
          else
            let r := udp_to_dccp skb.data iph dh (skb_len skb)
            ⟨NF_ACCEPT, { skb with data := r.1 }, { g with csum_u := r.2 }⟩
    else ⟨NF_ACCEPT, skb, g⟩

/-! ## Specification-level notions used in the statements -/

/-- Unbounded sum of the network-order 16-bit words of a byte string. -/
def wordSum : List Nat → Nat
  | [] => 0
  | [a] => a * 256
  | a :: b :: rest => a * 256 + b + wordSum rest

/-- Weight of the byte at offset `i` inside its 16-bit word. -/
def wt (i : Nat) : Nat := if i % 2 = 0 then 256 else 1

/-- Canonical 16-bit ones-complement representative of a sum: `0` only for `0`, otherwise the
value in `1 .. 65535` congruent to it modulo `65535`. -/
def ocfold (n : Nat) : Nat := if n = 0 then 0 else (n - 1) % 65535 + 1

/-- Offset of the transport header of a well-formed packet: `4 * ihl`. -/
def thoff (d : List Nat) : Nat := 4 * iph_ihl d 0

/-- Transport byte `k` of a packet whose IP header starts the buffer. -/
def tbyte (d : List Nat) (k : Nat) : Nat := rd d (thoff d + k)

/-- An IPv4 packet as the hooks receive it: the IP header starts the buffer, the transport
header follows the `4 * ihl` header bytes, a 16-byte extended DCCP header fits, the length
fits the `unsigned int` field `skb->len`, and every element is a byte. -/
def WellFormed (skb : SkBuff) : Prop :=
  skb.network_header = some 0 ∧ skb.transport_header = some (thoff skb.data) ∧
  5 ≤ iph_ihl skb.data 0 ∧ thoff skb.data + 16 ≤ skb.data.length ∧
  skb.data.length < 4294967296 ∧ ∀ b ∈ skb.data, b < 256

instance (skb : SkBuff) : Decidable (WellFormed skb) := by
  unfold WellFormed; infer_instance

/-- The gate of both hooks: source or destination port in the configured range. -/
def PortGate (cfg : Config) (d : List Nat) : Prop :=
  PORT_IN_RANGE cfg (dccph_sport d (thoff d)) = true ∨
  PORT_IN_RANGE cfg (dccph_dport d (thoff d)) = true

instance (cfg : Config) (d : List Nat) : Decidable (PortGate cfg d) := by
  unfold PortGate; infer_instance

/-- A packet `dccp_hook` converts: well-formed, protocol DCCP, X = 1, a port in range. -/
def Eligible (cfg : Config) (skb : SkBuff) : Prop :=
  WellFormed skb ∧ iph_protocol skb.data 0 = IPPROTO_DCCP ∧
  dccph_x skb.data (thoff skb.data) = 1 ∧ PortGate cfg skb.data

instance (cfg : Config) (skb : SkBuff) : Decidable (Eligible cfg skb) := by
  unfold Eligible; infer_instance

/-- An IPv4 packet in which the transport header bytes the hooks read and write (bytes 0..9:
ports, Data Offset or Length, checksum, byte 8, byte 9) all lie inside the packet.  It is
`WellFormed` with 10 transport bytes in place of 16. -/
def HeaderInside (skb : SkBuff) : Prop :=
  skb.network_header = some 0 ∧ skb.transport_header = some (thoff skb.data) ∧
  5 ≤ iph_ihl skb.data 0 ∧ thoff skb.data + 10 ≤ skb.data.length ∧
  skb.data.length < 4294967296 ∧ ∀ b ∈ skb.data, b < 256

instance (skb : SkBuff) : Decidable (HeaderInside skb) := by
  unfold HeaderInside; infer_instance

/-- An IPv4 packet that passes every test of `dccp_hook` (lines 158-172): protocol DCCP, X = 1,
source or destination port in range.  Nothing is asked of the packet length. -/
def ForwardGate (cfg : Config) (skb : SkBuff) : Prop :=
  skb.network_header = some 0 ∧ skb.transport_header = some (thoff skb.data) ∧
  5 ≤ iph_ihl skb.data 0 ∧ iph_protocol skb.data 0 = IPPROTO_DCCP ∧
  dccph_x skb.data (thoff skb.data) = 1 ∧ PortGate cfg skb.data

instance (cfg : Config) (skb : SkBuff) : Decidable (ForwardGate cfg skb) := by
  unfold ForwardGate; infer_instance

/-- The pseudo-header checksum both hooks compute and `udp_hook` validates: over source
address, destination address, `proto`, the transport length and the transport segment. -/
def pseudo_csum (d : List Nat) (proto : Nat) : Nat :=
  csum_tcpudp_magic (iph_saddr d 0) (iph_daddr d 0) (u32sub d.length (iph_ihl d 0 * 4)) proto
    (skb_checksum d (thoff d) (u32sub d.length (iph_ihl d 0 * 4)) 0)

/-- Plain sum behind `pseudo_csum`: the words of the transport segment plus the pseudo-header
(addresses, protocol, transport length). -/
def total (d : List Nat) (proto : Nat) : Nat :=
  wordSum (d.drop (thoff d)) + iph_saddr d 0 + iph_daddr d 0
    + (proto + (d.length - thoff d)) % 4294967296

/-- Lines 194-203 and 301-312: zero the checksum field, sum the segment, store the
pseudo-header checksum for `proto`. -/
def seal_csum (d : List Nat) (iph dh len proto : Nat) : List Nat × Nat :=
  let d := wr16 d (dh + 6) 0
  let c := skb_checksum d dh (u32sub len (iph_ihl d iph * 4)) 0
  (wr16 d (dh + 6) (csum_tcpudp_magic (iph_saddr d iph) (iph_daddr d iph)
      (u32sub len (iph_ihl d iph * 4)) proto c), c)

/-- Lines 177-191: the header rewrite of the forward direction, before the checksum. -/
def fwd_fields (d : List Nat) (iph dh len : Nat) : List Nat :=
  let d := wr d (dh + 8) (mk_ccval_type (dccph_type d dh) (dccph_ccval d dh))
  let d := wr d (dh + 9) (dccph_doff d dh)
  let d := wr16 d (dh + 4) (u32sub len (iph_ihl d iph * 4))
  let d := wr d (iph + 9) IPPROTO_UDP
  let d := wr16 d (iph + 10) 0
  wr16 d (iph + 10) (ip_fast_csum d iph (iph_ihl d iph))

/-- Lines 274-298: the header rewrite of the reverse direction, before the checksum. -/
def rev_fields (d : List Nat) (iph dh : Nat) : List Nat :=
  let d := wr d (dh + 4) (dccph_seq2 d dh)
  let d := set_dccph_ccval d dh (ccval_type_ccval d dh)
  let d := set_dccph_cscov d dh 0
  let d := set_dccph_type d dh (ccval_type_type d dh)
  let d := set_dccph_reserved d dh 0
  let d := wr d (dh + 9) 0
  let d := set_dccph_x d dh 1
  wr d (iph + 9) IPPROTO_DCCP

/-- Bytes `dccp_hook` leaves in a well-formed eligible packet. -/
def fwd (d : List Nat) : List Nat := (dccp_to_udp d 0 (thoff d) d.length).1

/-- Bytes `udp_hook` leaves in a well-formed packet it converts. -/
def rev (d : List Nat) : List Nat := (udp_to_dccp d 0 (thoff d) d.length).1

/-- Forward then reverse: `udp_hook` applied to the buffer `dccp_hook` leaves. -/
def round_trip (cfg : Config) (g1 g2 : Globals) (skb : SkBuff) : HookResult :=
  udp_hook cfg g2 (dccp_hook cfg g1 skb).skb

/-- Byte `b` with bit `k` inverted. -/
def flipBit (b k : Nat) : Nat := if b / 2 ^ k % 2 = 1 then b - 2 ^ k else b + 2 ^ k

/-- The buffer with bit `k` of the byte at offset `i` inverted. -/
def flipAt (skb : SkBuff) (i k : Nat) : SkBuff :=
  { skb with data := wr skb.data i (flipBit (rd skb.data i) k) }

/-! ## Test packets -/

/-- The packet of the specification scenario: 20-byte IP header (10.0.0.1 to 10.0.0.2,
protocol 33, total length 52), then 32 transport bytes: ports 1337/1337, Data Offset 3,
CCVal 2, CsCov 5, Reserved 5, Type 0, X 1, sequence number 42, and payload. -/
def scenarioData : List Nat :=
  [0x45, 0, 0, 52, 0, 0, 0, 0, 64, 33, 0x66, 0xA7, 10, 0, 0, 1, 10, 0, 0, 2,
   5, 57, 5, 57, 3, 0x25, 0xAB, 0xCD, 0xA1, 7, 0, 0, 0, 0, 0, 42,
   1, 2, 3, 4, 5, 6, 7, 8, 9, 10, 11, 12, 13, 14, 15, 16]

def scenarioSkb : SkBuff :=
  { data := scenarioData, network_header := some 0, transport_header := some 20,
    nonlinear := false, linearize_fails := false, ip_summed := 0, csum_valid := false,
    csum_start_offset := 0 }

def g0 : Globals := ⟨0, 0, 0⟩

/-- The scenario packet with both ports 9999, outside the default range. -/
def outOfRangeSkb : SkBuff :=
  { scenarioSkb with data := wr16 (wr16 scenarioData 20 9999) 22 9999 }

/-- The scenario packet with X = 0 (byte 8 of the transport header even). -/
def shortHeaderSkb : SkBuff :=
  { scenarioSkb with data := wr scenarioData 28 0xA0 }

/-- The scenario packet with destination port 9999: only the source port is in range. -/
def onePortSkb : SkBuff :=
  { scenarioSkb with data := wr16 scenarioData 22 9999 }

/-- A canonical DCCP packet: the scenario packet with CsCov 0, Reserved 0, transport byte 9
zero and the full-coverage DCCP pseudo-header checksum 0x9CB7 in the checksum field. -/
def canonicalData : List Nat :=
  [0x45, 0, 0, 52, 0, 0, 0, 0, 64, 33, 0x66, 0xA7, 10, 0, 0, 1, 10, 0, 0, 2,
   5, 57, 5, 57, 3, 0x20, 0x9C, 0xB7, 0x01, 0, 0, 0, 0, 0, 0, 42,
   1, 2, 3, 4, 5, 6, 7, 8, 9, 10, 11, 12, 13, 14, 15, 16]

def canonicalSkb : SkBuff := { scenarioSkb with data := canonicalData }

/-- The canonical packet in a non-linear buffer whose linearization fails. -/
def unlinearizableSkb : SkBuff :=
  { canonicalSkb with nonlinear := true, linearize_fails := true }

/-- A DCCP packet with the 12-byte generic header and an empty payload: ports 1337/1337,
Data Offset 3, CCVal 2, Type 0, X 1. -/
def emptyPayloadSkb : SkBuff :=
  { scenarioSkb with data :=
      [0x45, 0, 0, 32, 0, 0, 0, 0, 64, 33, 0x66, 0xBB, 10, 0, 0, 1, 10, 0, 0, 2,
       5, 57, 5, 57, 3, 0x20, 0xDD, 0x13, 1, 0, 0, 42] }

set_option maxRecDepth 100000

/-! ## Byte-level lemmas -/

theorem length_wr (d : List Nat) (i v : Nat) : (wr d i v).length = d.length := by
  simp [wr]

theorem length_wr16 (d : List Nat) (i v : Nat) : (wr16 d i v).length = d.length := by
  simp [wr16, length_wr]

theorem rd_wr_same (d : List Nat) (i v : Nat) (h : i < d.length) : rd (wr d i v) i = v := by
  simp [rd, wr, h]

theorem rd_wr_ne (d : List Nat) (i v j : Nat) (h : i ≠ j) : rd (wr d i v) j = rd d j := by
  simp [rd, wr, List.getElem?_set_ne h]

theorem rd_wr16_ne (d : List Nat) (i v j : Nat) (h1 : i ≠ j) (h2 : i + 1 ≠ j) :
    rd (wr16 d i v) j = rd d j := by
  simp [wr16, rd_wr_ne, h1, h2]

theorem rd_wr16_hi (d : List Nat) (i v : Nat) (h : i < d.length) :
    rd (wr16 d i v) i = v / 256 % 256 := by
  rw [wr16, rd_wr_ne _ _ _ _ (by omega), rd_wr_same _ _ _ h]

theorem rd_wr16_lo (d : List Nat) (i v : Nat) (h : i + 1 < d.length) :
    rd (wr16 d i v) (i + 1) = v % 256 := by
  rw [wr16, rd_wr_same _ _ _ (by simpa [length_wr] using h)]

theorem rd_lt_of_bytes (d : List Nat) (hb : ∀ b ∈ d, b < 256) (i : Nat) : rd d i < 256 := by
  unfold rd
  by_cases h : i < d.length
  · rw [List.getD_eq_getElem _ _ h]
    exact hb _ (List.getElem_mem h)
  · rw [List.getD_eq_default _ _ (by omega)]
    omega

theorem bytes_wr (d : List Nat) (i v : Nat) (hb : ∀ b ∈ d, b < 256) (hv : v < 256) :
    ∀ b ∈ wr d i v, b < 256 := by
  intro b hmem
  rcases List.mem_or_eq_of_mem_set hmem with h | h
  · exact hb b h
  · omega

theorem bytes_wr16 (d : List Nat) (i v : Nat) (hb : ∀ b ∈ d, b < 256) :
    ∀ b ∈ wr16 d i v, b < 256 := by
  unfold wr16
  exact bytes_wr _ _ _ (bytes_wr _ _ _ hb (Nat.mod_lt _ (by norm_num))) (Nat.mod_lt _ (by norm_num))

theorem ext_rd (a b : List Nat) (hl : a.length = b.length)
    (h : ∀ i, i < a.length → rd a i = rd b i) : a = b := by
  apply List.ext_getElem hl
  intro i h1 h2
  have := h i h1
  unfold rd at this
  rwa [List.getD_eq_getElem _ _ h1, List.getD_eq_getElem _ _ h2] at this

/-! ## Ones-complement arithmetic -/

theorem ocfold_csum_add (a b : Nat) : ocfold (csum_add a b) = ocfold (a + b) := by
  unfold ocfold csum_add
  split_ifs <;> omega

theorem ocfold_congr (a a' b : Nat) (h : ocfold a = ocfold a') :
    ocfold (a + b) = ocfold (a' + b) := by
  unfold ocfold at *
  split_ifs at * <;> omega

theorem csum_add_lt (a b : Nat) (ha : a < 4294967296) (hb : b < 4294967296) :
    csum_add a b < 4294967296 := by
  unfold csum_add
  omega

theorem ocfold_step16 (y : Nat) : ocfold (y % 65536 + y / 65536) = ocfold y := by
  unfold ocfold
  split_ifs <;> omega

theorem ocfold_step32 (y : Nat) : ocfold (y % 4294967296 + y / 4294967296) = ocfold y := by
  unfold ocfold
  split_ifs <;> omega

theorem ocfold_small (y : Nat) (h : y ≤ 65535) : ocfold y = y := by
  unfold ocfold
  split_ifs <;> omega

theorem csum_fold_eq (x : Nat) (hx : x < 4294967296) : csum_fold x = 65535 - ocfold x := by
  unfold csum_fold
  simp only
  rw [Nat.mod_eq_of_lt hx]
  generalize h1 : x % 65536 + x / 65536 = s1
  have e1 : ocfold s1 = ocfold x := h1 ▸ ocfold_step16 x
  have b1 : s1 < 131071 := by omega
  generalize h2 : s1 % 65536 + s1 / 65536 = s2
  have e2 : ocfold s2 = ocfold s1 := h2 ▸ ocfold_step16 s1
  have b2 : s2 ≤ 65535 := by omega
  rw [← e1, ← e2, ocfold_small s2 b2, Nat.mod_eq_of_lt (by omega)]

theorem from64to32_lt (x : Nat) : from64to32 x < 4294967296 := by
  unfold from64to32
  exact Nat.mod_lt _ (by norm_num)

theorem ocfold_from64to32 (x : Nat) (hx : x < 18446744073709551616) :
    ocfold (from64to32 x) = ocfold x := by
  unfold from64to32
  simp only
  rw [Nat.mod_eq_of_lt hx]
  generalize h1 : x % 4294967296 + x / 4294967296 = s1
  have e1 : ocfold s1 = ocfold x := h1 ▸ ocfold_step32 x
  have b1 : s1 < 8589934591 := by omega
  generalize h2 : s1 % 4294967296 + s1 / 4294967296 = s2
  have e2 : ocfold s2 = ocfold s1 := h2 ▸ ocfold_step32 s1
  have b2 : s2 < 4294967296 := by omega
  rw [Nat.mod_eq_of_lt b2, e2, e1]

theorem ocfold_le (n : Nat) : ocfold n ≤ 65535 := by
  unfold ocfold
  split_ifs <;> omega

theorem ocfold_eq_max_iff (n : Nat) : ocfold n = 65535 ↔ n ≠ 0 ∧ n % 65535 = 0 := by
  unfold ocfold
  split_ifs with h
  · simp [h]
  · constructor
    · intro h1
      exact ⟨h, by omega⟩
    · intro h1
      omega

/-! ## Checksum accumulation -/

theorem csum_partial_lt : ∀ (l : List Nat) (s : Nat), (∀ b ∈ l, b < 256) → s < 4294967296 →
    csum_partial_bytes l s < 4294967296
  | [], s, _, hs => by simpa [csum_partial_bytes] using hs
  | [a], s, hb, hs => by
    have ha : a < 256 := hb a (by simp)
    simp only [csum_partial_bytes]
    exact csum_add_lt _ _ hs (by omega)
  | a :: b :: rest, s, hb, hs => by
    have ha : a < 256 := hb a (by simp)
    have hb' : b < 256 := hb b (by simp)
    simp only [csum_partial_bytes]
    exact csum_partial_lt rest _ (fun x hx => hb x (by simp [hx]))
      (csum_add_lt _ _ hs (by omega))

theorem ocfold_csum_bytes : ∀ (l : List Nat) (s : Nat),
    ocfold (csum_partial_bytes l s) = ocfold (s + wordSum l)
  | [], s => by simp [csum_partial_bytes, wordSum]
  | [a], s => by simp [csum_partial_bytes, wordSum, ocfold_csum_add]
  | a :: b :: rest, s => by
    simp only [csum_partial_bytes, wordSum]
    rw [ocfold_csum_bytes rest, ocfold_congr _ _ _ (ocfold_csum_add s (a * 256 + b))]
    congr 1
    omega

theorem wt_add_two (i : Nat) : wt (i + 2) = wt i := by
  unfold wt
  have : (i + 2) % 2 = i % 2 := by omega
  rw [this]

theorem wordSum_set : ∀ (l : List Nat) (i v : Nat), i < l.length →
    wordSum (l.set i v) + l.getD i 0 * wt i = wordSum l + v * wt i
  | [], i, v, h => by simp at h
  | [a], i, v, h => by
    have : i = 0 := by simpa using h
    subst this
    simp [wordSum, wt]
    omega
  | a :: b :: rest, 0, v, _ => by
    simp [wordSum, wt]
    omega
  | a :: b :: rest, 1, v, _ => by
    simp [wordSum, wt]
    omega
  | a :: b :: rest, i + 2, v, h => by
    have h' : i < rest.length := by simpa using h
    have ih := wordSum_set rest i v h'
    simp only [List.set_cons_succ, wordSum, List.getD_cons_succ, wt_add_two]
    omega

theorem wordSum_le : ∀ (l : List Nat), (∀ b ∈ l, b < 256) → wordSum l ≤ 256 * 256 * l.length
  | [], _ => by simp [wordSum]
  | [a], hb => by
    have ha : a < 256 := hb a (by simp)
    simp [wordSum]
    omega
  | a :: b :: rest, hb => by
    have ha : a < 256 := hb a (by simp)
    have hb' : b < 256 := hb b (by simp)
    have ih := wordSum_le rest (fun x hx => hb x (by simp [hx]))
    simp only [wordSum, List.length_cons]
    omega

theorem rd32_lt (d : List Nat) (hb : ∀ b ∈ d, b < 256) (i : Nat) : rd32 d i < 4294967296 := by
  have h0 := rd_lt_of_bytes d hb i
  have h1 := rd_lt_of_bytes d hb (i + 1)
  have h2 := rd_lt_of_bytes d hb (i + 2)
  have h3 := rd_lt_of_bytes d hb (i + 3)
  unfold rd32
  omega

/-- The pseudo-header checksum as the complement of the canonical fold of the plain sum. -/
theorem csum_tcpudp_magic_eq (seg : List Nat) (sa da len proto : Nat)
    (hb : ∀ b ∈ seg, b < 256) (hsa : sa < 4294967296) (hda : da < 4294967296)
    (hlen : len < 4294967296) (hp : proto < 256) :
    csum_tcpudp_magic sa da len proto (csum_partial_bytes seg 0)
      = 65535 - ocfold (wordSum seg + sa + da + (proto + len) % 4294967296) := by
  have hs := csum_partial_lt seg 0 hb (by norm_num)
  have e := ocfold_csum_bytes seg 0
  unfold csum_tcpudp_magic csum_tcpudp_nofold
  rw [csum_fold_eq _ (from64to32_lt _), ocfold_from64to32 _ (by omega),
    Nat.mod_eq_of_lt hs, Nat.mod_eq_of_lt hsa, Nat.mod_eq_of_lt hda, Nat.mod_eq_of_lt hlen,
    Nat.mod_eq_of_lt hp]
  have := ocfold_congr _ _ (sa + da + (proto + len) % 4294967296) e
  rw [show csum_partial_bytes seg 0 + sa + da + (proto + len) % 4294967296
      = csum_partial_bytes seg 0 + (sa + da + (proto + len) % 4294967296) by omega, this]
  congr 2
  omega

/-- Sealing: storing the complement of the fold makes the total fold to all ones. -/
theorem ocfold_seal (t : Nat) : ocfold (t + (65535 - ocfold t)) = 65535 := by
  rw [ocfold_eq_max_iff]
  unfold ocfold
  split_ifs <;> omega

/-! ## The two rewrites in stages -/

theorem dccp_to_udp_eq (d : List Nat) (iph dh len : Nat) :
    dccp_to_udp d iph dh len = seal_csum (fwd_fields d iph dh len) iph dh len IPPROTO_UDP := rfl

theorem udp_to_dccp_eq (d : List Nat) (iph dh len : Nat) :
    udp_to_dccp d iph dh len = seal_csum (rev_fields d iph dh) iph dh len IPPROTO_DCCP := rfl

theorem length_fwd_fields (d : List Nat) (iph dh len : Nat) :
    (fwd_fields d iph dh len).length = d.length := by
  simp [fwd_fields, length_wr, length_wr16]

theorem length_rev_fields (d : List Nat) (iph dh : Nat) :
    (rev_fields d iph dh).length = d.length := by
  simp [rev_fields, set_dccph_ccval, set_dccph_cscov, set_dccph_type, set_dccph_reserved,
    set_dccph_x, length_wr]

theorem length_seal_csum (d : List Nat) (iph dh len proto : Nat) :
    (seal_csum d iph dh len proto).1.length = d.length := by
  simp [seal_csum, length_wr16]

theorem rd_fwd_fields_frame (d : List Nat) (t len j : Nat) (ht : 20 ≤ t)
    (h1 : j ≠ 9) (h2 : j ≠ 10) (h3 : j ≠ 11)
    (h4 : j < t + 4 ∨ t + 5 < j) (h5 : j ≠ t + 8) (h6 : j ≠ t + 9) :
    rd (fwd_fields d 0 t len) j = rd d j := by
  simp only [fwd_fields]
  simp (disch := omega) only [rd_wr_ne, rd_wr16_ne]

theorem rd_rev_fields_frame (d : List Nat) (t j : Nat) (ht : 20 ≤ t)
    (h1 : j ≠ 9) (h4 : j ≠ t + 4) (h4' : j ≠ t + 5) (h5 : j ≠ t + 8) (h6 : j ≠ t + 9) :
    rd (rev_fields d 0 t) j = rd d j := by
  simp only [rev_fields, set_dccph_ccval, set_dccph_cscov, set_dccph_type, set_dccph_reserved,
    set_dccph_x]
  simp (disch := omega) only [rd_wr_ne, rd_wr16_ne]

theorem rd_seal_csum_frame (d : List Nat) (iph dh len proto j : Nat)
    (h1 : j ≠ dh + 6) (h2 : j ≠ dh + 7) :
    rd (seal_csum d iph dh len proto).1 j = rd d j := by
  simp only [seal_csum]
  simp (disch := omega) only [rd_wr_ne, rd_wr16_ne]

theorem iph_ihl_fwd_fields (d : List Nat) (t len : Nat) (ht : 20 ≤ t) :
    iph_ihl (fwd_fields d 0 t len) 0 = iph_ihl d 0 := by
  unfold iph_ihl
  rw [rd_fwd_fields_frame d t len 0 ht] <;> omega

theorem rd_fwd_fields_proto (d : List Nat) (t len : Nat) (ht : 20 ≤ t) (hn : t ≤ d.length) :
    rd (fwd_fields d 0 t len) 9 = IPPROTO_UDP := by
  simp only [fwd_fields]
  simp (disch := first | omega | (simp only [length_wr, length_wr16]; omega)) only
    [rd_wr_ne, rd_wr16_ne, rd_wr_same]

theorem rd_fwd_fields_8 (d : List Nat) (t len : Nat) (ht : 20 ≤ t) (hn : t + 10 ≤ d.length) :
    rd (fwd_fields d 0 t len) (t + 8) = mk_ccval_type (dccph_type d t) (dccph_ccval d t) := by
  simp only [fwd_fields]
  simp (disch := first | omega | (simp only [length_wr, length_wr16]; omega)) only
    [rd_wr_ne, rd_wr16_ne, rd_wr_same]

theorem rd_fwd_fields_9 (d : List Nat) (t len : Nat) (ht : 20 ≤ t) (hn : t + 10 ≤ d.length) :
    rd (fwd_fields d 0 t len) (t + 9) = dccph_doff d t := by
  simp only [fwd_fields, dccph_doff]
  simp (disch := first | omega | (simp only [length_wr, length_wr16]; omega)) only
    [rd_wr_ne, rd_wr16_ne, rd_wr_same]

theorem rd16_fwd_fields_len (d : List Nat) (t len : Nat) (ht : 20 ≤ t)
    (hn : t + 6 ≤ d.length) :
    rd16 (fwd_fields d 0 t len) (t + 4) = u32sub len (iph_ihl d 0 * 4) % 65536 := by
  simp only [fwd_fields, rd16, iph_ihl]
  simp (disch := first | omega | (simp only [length_wr, length_wr16]; omega)) only
    [rd_wr_ne, rd_wr16_ne, rd_wr_same, rd_wr16_hi, rd_wr16_lo]
  omega

theorem rd_rev_fields_proto (d : List Nat) (t : Nat) (ht : 20 ≤ t) (hn : t ≤ d.length) :
    rd (rev_fields d 0 t) 9 = IPPROTO_DCCP := by
  simp only [rev_fields, set_dccph_ccval, set_dccph_cscov, set_dccph_type, set_dccph_reserved,
    set_dccph_x]
  simp (disch := first | omega | (simp only [length_wr, length_wr16]; omega)) only
    [rd_wr_ne, rd_wr16_ne, rd_wr_same]

theorem rd_rev_fields_4 (d : List Nat) (t : Nat) (ht : 20 ≤ t) (hn : t + 10 ≤ d.length) :
    rd (rev_fields d 0 t) (t + 4) = rd d (t + 9) := by
  simp only [rev_fields, set_dccph_ccval, set_dccph_cscov, set_dccph_type, set_dccph_reserved,
    set_dccph_x, dccph_seq2]
  simp (disch := first | omega | (simp only [length_wr, length_wr16]; omega)) only
    [rd_wr_ne, rd_wr16_ne, rd_wr_same]

theorem rd_rev_fields_5 (d : List Nat) (t : Nat) (ht : 20 ≤ t) (hn : t + 10 ≤ d.length) :
    rd (rev_fields d 0 t) (t + 5) = rd d (t + 8) / 16 % 16 * 16 := by
  simp only [rev_fields, set_dccph_ccval, set_dccph_cscov, set_dccph_type, set_dccph_reserved,
    set_dccph_x, dccph_seq2, ccval_type_ccval, ccval_type_type]
  simp (disch := first | omega | (simp only [length_wr, length_wr16]; omega)) only
    [rd_wr_ne, rd_wr16_ne, rd_wr_same]
  omega

theorem rd_rev_fields_8 (d : List Nat) (t : Nat) (ht : 20 ≤ t) (hn : t + 10 ≤ d.length) :
    rd (rev_fields d 0 t) (t + 8) = rd d (t + 8) % 16 * 2 + 1 := by
  simp only [rev_fields, set_dccph_ccval, set_dccph_cscov, set_dccph_type, set_dccph_reserved,
    set_dccph_x, dccph_seq2, ccval_type_ccval, ccval_type_type]
  simp (disch := first | omega | (simp only [length_wr, length_wr16]; omega)) only
    [rd_wr_ne, rd_wr16_ne, rd_wr_same]
  generalize rd d (t + 8) = b
  have h1 : (b / 32 % 8 * 32 + b % 16 % 16 * 2 + b % 2) % 32 = b % 16 * 2 + b % 2 := by omega
  rw [h1]
  clear h1
  have hx : b % 16 < 16 := Nat.mod_lt _ (by norm_num)
  have hy : b % 2 < 2 := Nat.mod_lt _ (by norm_num)
  generalize b % 16 = x at hx ⊢
  generalize b % 2 = y at hy ⊢
  omega

theorem rd_rev_fields_9 (d : List Nat) (t : Nat) (ht : 20 ≤ t) (hn : t + 10 ≤ d.length) :
    rd (rev_fields d 0 t) (t + 9) = 0 := by
  simp only [rev_fields, set_dccph_ccval, set_dccph_cscov, set_dccph_type, set_dccph_reserved,
    set_dccph_x, dccph_seq2, ccval_type_ccval, ccval_type_type]
  simp (disch := first | omega | (simp only [length_wr, length_wr16]; omega)) only
    [rd_wr_ne, rd_wr16_ne, rd_wr_same]

/-! ## The pseudo-header checksum of a packet -/

theorem bytes_drop (d : List Nat) (n : Nat) (hb : ∀ b ∈ d, b < 256) :
    ∀ b ∈ d.drop n, b < 256 :=
  fun b h => hb b (List.mem_of_mem_drop h)

theorem u32sub_len (n ihl : Nat) (h1 : 4 * ihl ≤ n) (h2 : n < 4294967296) :
    u32sub n (ihl * 4) = n - 4 * ihl := by
  unfold u32sub
  omega

theorem pseudo_csum_eq (d : List Nat) (proto : Nat) (hb : ∀ b ∈ d, b < 256)
    (ht : thoff d ≤ d.length) (hn : d.length < 4294967296) (hp : proto < 256) :
    pseudo_csum d proto = 65535 - ocfold (total d proto) := by
  unfold pseudo_csum skb_checksum total
  have hl : u32sub d.length (iph_ihl d 0 * 4) = d.length - thoff d :=
    u32sub_len _ _ ht hn
  rw [hl, List.take_of_length_le (by simp)]
  exact csum_tcpudp_magic_eq _ _ _ _ _ (bytes_drop d _ hb) (rd32_lt d hb _) (rd32_lt d hb _)
    (by omega) hp

theorem thoff_wr (d : List Nat) (i v : Nat) (hi : i ≠ 0) : thoff (wr d i v) = thoff d := by
  unfold thoff iph_ihl
  rw [rd_wr_ne _ _ _ _ hi]

theorem rd32_wr (d : List Nat) (i v j : Nat) (h : i < j ∨ j + 3 < i) :
    rd32 (wr d i v) j = rd32 d j := by
  unfold rd32
  simp (disch := omega) only [rd_wr_ne]

theorem total_wr (d : List Nat) (i v proto : Nat) (h20 : 20 ≤ thoff d) (hi : thoff d ≤ i)
    (hn : i < d.length) :
    total (wr d i v) proto + rd d i * wt (i - thoff d)
      = total d proto + v * wt (i - thoff d) := by
  unfold total iph_saddr iph_daddr
  rw [thoff_wr d i v (by omega), rd32_wr d i v _ (by omega), rd32_wr d i v _ (by omega),
    length_wr]
  have hs := wordSum_set (d.drop (thoff d)) (i - thoff d) v (by simp; omega)
  have e1 : (wr d i v).drop (thoff d) = (d.drop (thoff d)).set (i - thoff d) v := by
    unfold wr
    rw [List.drop_set, if_neg (by omega)]
  have e2 : (d.drop (thoff d)).getD (i - thoff d) 0 = rd d i := by
    unfold rd
    simp only [List.getD_eq_getElem?_getD, List.getElem?_drop]
    congr 2
    omega
  rw [e1]
  rw [e2] at hs
  omega

theorem total_wr16_csum (d : List Nat) (v proto : Nat) (h20 : 20 ≤ thoff d)
    (hn : thoff d + 8 ≤ d.length) :
    total (wr16 d (thoff d + 6) v) proto + rd16 d (thoff d + 6)
      = total d proto + v % 65536 := by
  unfold wr16 rd16
  have h1 := total_wr d (thoff d + 6) (v / 256 % 256) proto h20 (by omega) (by omega)
  have h2 := total_wr (wr d (thoff d + 6) (v / 256 % 256)) (thoff d + 6 + 1) (v % 256) proto
    (by rw [thoff_wr _ _ _ (by omega)]; exact h20)
    (by rw [thoff_wr _ _ _ (by omega)]; omega)
    (by rw [length_wr]; omega)
  rw [thoff_wr _ _ _ (by omega), rd_wr_ne _ _ _ _ (by omega)] at h2
  have w1 : wt (thoff d + 6 - thoff d) = 256 := by
    have : thoff d + 6 - thoff d = 6 := by omega
    rw [this]; rfl
  have w2 : wt (thoff d + 6 + 1 - thoff d) = 1 := by
    have : thoff d + 6 + 1 - thoff d = 7 := by omega
    rw [this]; rfl
  rw [w1] at h1
  rw [w2] at h2
  omega

theorem thoff_wr16 (d : List Nat) (i v : Nat) (hi : i ≠ 0) : thoff (wr16 d i v) = thoff d := by
  unfold wr16
  rw [thoff_wr _ _ _ (by omega), thoff_wr _ _ _ hi]

theorem seal_csum_eq (d : List Nat) (proto : Nat) (h20 : 20 ≤ thoff d) :
    (seal_csum d 0 (thoff d) d.length proto).1
      = wr16 (wr16 d (thoff d + 6) 0) (thoff d + 6)
          (pseudo_csum (wr16 d (thoff d + 6) 0) proto) := by
  unfold seal_csum pseudo_csum
  simp only [length_wr16, thoff_wr16 d (thoff d + 6) 0 (by omega)]

/-- After sealing, the pseudo-header checksum over the buffer, stored field included, is
zero. -/
theorem pseudo_csum_seal (d : List Nat) (proto : Nat) (hb : ∀ b ∈ d, b < 256)
    (h20 : 20 ≤ thoff d) (hn : thoff d + 8 ≤ d.length) (hl : d.length < 4294967296)
    (hp : proto < 256) :
    pseudo_csum (seal_csum d 0 (thoff d) d.length proto).1 proto = 0 := by
  rw [seal_csum_eq d proto h20]
  generalize hd0 : wr16 d (thoff d + 6) 0 = d0
  have ht0 : thoff d0 = thoff d := by rw [← hd0, thoff_wr16 _ _ _ (by omega)]
  have hl0 : d0.length = d.length := by rw [← hd0, length_wr16]
  have hb0 : ∀ b ∈ d0, b < 256 := by rw [← hd0]; exact bytes_wr16 _ _ _ hb
  have hz : rd16 d0 (thoff d0 + 6) = 0 := by
    rw [ht0, ← hd0]
    unfold rd16
    rw [rd_wr16_hi _ _ _ (by omega), rd_wr16_lo _ _ _ (by omega)]
  have hc := pseudo_csum_eq d0 proto hb0 (by omega) (by omega) hp
  generalize pseudo_csum d0 proto = c at hc ⊢
  have hT := total_wr16_csum d0 c proto (by omega) (by omega)
  rw [hz] at hT
  rw [← ht0]
  rw [pseudo_csum_eq _ proto (bytes_wr16 _ _ _ hb0)
    (by rw [thoff_wr16 _ _ _ (by omega), length_wr16]; omega)
    (by rw [length_wr16]; omega) hp]
  have hle := ocfold_le (total d0 proto)
  have hs := ocfold_seal (total d0 proto)
  have : total (wr16 d0 (thoff d0 + 6) c) proto = total d0 proto + (65535 - ocfold (total d0 proto)) := by
    omega
  rw [this, hs]

/-! ## Facts about the converted bytes -/

theorem mk_ccval_type_lt (a b : Nat) : mk_ccval_type a b < 256 := by
  unfold mk_ccval_type
  omega

theorem bytes_fwd_fields (d : List Nat) (iph dh len : Nat) (hb : ∀ b ∈ d, b < 256) :
    ∀ b ∈ fwd_fields d iph dh len, b < 256 := by
  unfold fwd_fields
  simp only
  refine bytes_wr16 _ _ _ (bytes_wr16 _ _ _ (bytes_wr _ _ _ (bytes_wr16 _ _ _
    (bytes_wr _ _ _ (bytes_wr _ _ _ hb (mk_ccval_type_lt _ _)) ?_)) (by decide)))
  exact rd_lt_of_bytes _ (bytes_wr _ _ _ hb (mk_ccval_type_lt _ _)) _

theorem bytes_rev_fields (d : List Nat) (iph dh : Nat) (hb : ∀ b ∈ d, b < 256) :
    ∀ b ∈ rev_fields d iph dh, b < 256 := by
  unfold rev_fields set_dccph_ccval set_dccph_cscov set_dccph_type set_dccph_reserved
    set_dccph_x
  simp only
  refine bytes_wr _ _ _ (bytes_wr _ _ _ (bytes_wr _ _ _ (bytes_wr _ _ _ (bytes_wr _ _ _
    (bytes_wr _ _ _ (bytes_wr _ _ _ (bytes_wr _ _ _ hb ?_) ?_) ?_) ?_) ?_) ?_) ?_) ?_
  · exact rd_lt_of_bytes _ hb _
  · omega
  · omega
  · omega
  · omega
  · omega
  · omega
  · decide

theorem bytes_seal_csum (d : List Nat) (iph dh len proto : Nat) (hb : ∀ b ∈ d, b < 256) :
    ∀ b ∈ (seal_csum d iph dh len proto).1, b < 256 := by
  unfold seal_csum
  exact bytes_wr16 _ _ _ (bytes_wr16 _ _ _ hb)

theorem fwd_eq (d : List Nat) :
    fwd d = (seal_csum (fwd_fields d 0 (thoff d) d.length) 0 (thoff d) d.length IPPROTO_UDP).1 :=
  rfl

theorem rev_eq (d : List Nat) :
    rev d = (seal_csum (rev_fields d 0 (thoff d)) 0 (thoff d) d.length IPPROTO_DCCP).1 :=
  rfl

theorem length_fwd (d : List Nat) : (fwd d).length = d.length := by
  rw [fwd_eq, length_seal_csum, length_fwd_fields]

theorem length_rev (d : List Nat) : (rev d).length = d.length := by
  rw [rev_eq, length_seal_csum, length_rev_fields]

theorem bytes_fwd (d : List Nat) (hb : ∀ b ∈ d, b < 256) : ∀ b ∈ fwd d, b < 256 := by
  rw [fwd_eq]
  exact bytes_seal_csum _ _ _ _ _ (bytes_fwd_fields _ _ _ _ hb)

theorem bytes_rev (d : List Nat) (hb : ∀ b ∈ d, b < 256) : ∀ b ∈ rev d, b < 256 := by
  rw [rev_eq]
  exact bytes_seal_csum _ _ _ _ _ (bytes_rev_fields _ _ _ hb)

theorem thoff_fwd_fields (d : List Nat) (len : Nat) (h20 : 20 ≤ thoff d) :
    thoff (fwd_fields d 0 (thoff d) len) = thoff d := by
  show 4 * iph_ihl (fwd_fields d 0 (thoff d) len) 0 = thoff d
  rw [iph_ihl_fwd_fields d _ len h20]
  rfl

theorem thoff_rev_fields (d : List Nat) (h20 : 20 ≤ thoff d) :
    thoff (rev_fields d 0 (thoff d)) = thoff d := by
  show 4 * (rd (rev_fields d 0 (thoff d)) 0 % 16) = thoff d
  rw [rd_rev_fields_frame d _ 0 h20] <;> first | rfl | omega

theorem rd_fwd_frame (d : List Nat) (j : Nat) (h20 : 20 ≤ thoff d)
    (h1 : j < 9 ∨ 11 < j) (h2 : j < thoff d + 4 ∨ thoff d + 9 < j) :
    rd (fwd d) j = rd d j := by
  rw [fwd_eq, rd_seal_csum_frame _ _ _ _ _ _ (by omega) (by omega),
    rd_fwd_fields_frame d _ _ j h20] <;> omega

theorem rd_rev_frame (d : List Nat) (j : Nat) (h20 : 20 ≤ thoff d)
    (h1 : j ≠ 9) (h2 : j < thoff d + 4 ∨ thoff d + 9 < j) :
    rd (rev d) j = rd d j := by
  rw [rev_eq, rd_seal_csum_frame _ _ _ _ _ _ (by omega) (by omega),
    rd_rev_fields_frame d _ j h20] <;> omega

theorem thoff_fwd (d : List Nat) (h20 : 20 ≤ thoff d) : thoff (fwd d) = thoff d := by
  show 4 * (rd (fwd d) 0 % 16) = thoff d
  rw [rd_fwd_frame d 0 h20 (by omega) (by omega)]
  rfl

theorem thoff_rev (d : List Nat) (h20 : 20 ≤ thoff d) : thoff (rev d) = thoff d := by
  show 4 * (rd (rev d) 0 % 16) = thoff d
  rw [rd_rev_frame d 0 h20 (by omega) (by omega)]
  rfl

theorem rd_fwd_proto (d : List Nat) (h20 : 20 ≤ thoff d) (hn : thoff d ≤ d.length) :
    rd (fwd d) 9 = IPPROTO_UDP := by
  rw [fwd_eq, rd_seal_csum_frame _ _ _ _ _ _ (by omega) (by omega),
    rd_fwd_fields_proto d _ _ h20 hn]

theorem rd_rev_proto (d : List Nat) (h20 : 20 ≤ thoff d) (hn : thoff d ≤ d.length) :
    rd (rev d) 9 = IPPROTO_DCCP := by
  rw [rev_eq, rd_seal_csum_frame _ _ _ _ _ _ (by omega) (by omega),
    rd_rev_fields_proto d _ h20 hn]

theorem rd_fwd_8 (d : List Nat) (h20 : 20 ≤ thoff d) (hn : thoff d + 10 ≤ d.length) :
    rd (fwd d) (thoff d + 8)
      = mk_ccval_type (dccph_type d (thoff d)) (dccph_ccval d (thoff d)) := by
  rw [fwd_eq, rd_seal_csum_frame _ _ _ _ _ _ (by omega) (by omega),
    rd_fwd_fields_8 d _ _ h20 hn]

theorem rd_fwd_9 (d : List Nat) (h20 : 20 ≤ thoff d) (hn : thoff d + 10 ≤ d.length) :
    rd (fwd d) (thoff d + 9) = dccph_doff d (thoff d) := by
  rw [fwd_eq, rd_seal_csum_frame _ _ _ _ _ _ (by omega) (by omega),
    rd_fwd_fields_9 d _ _ h20 hn]

theorem rd16_fwd_len (d : List Nat) (h20 : 20 ≤ thoff d) (hn : thoff d + 6 ≤ d.length) :
    rd16 (fwd d) (thoff d + 4) = u32sub d.length (iph_ihl d 0 * 4) % 65536 := by
  unfold rd16
  rw [fwd_eq, rd_seal_csum_frame _ _ _ _ _ _ (by omega) (by omega),
    rd_seal_csum_frame _ _ _ _ _ _ (by omega) (by omega)]
  exact rd16_fwd_fields_len d _ _ h20 hn

theorem rd_rev_4 (d : List Nat) (h20 : 20 ≤ thoff d) (hn : thoff d + 10 ≤ d.length) :
    rd (rev d) (thoff d + 4) = rd d (thoff d + 9) := by
  rw [rev_eq, rd_seal_csum_frame _ _ _ _ _ _ (by omega) (by omega),
    rd_rev_fields_4 d _ h20 hn]

theorem rd_rev_5 (d : List Nat) (h20 : 20 ≤ thoff d) (hn : thoff d + 10 ≤ d.length) :
    rd (rev d) (thoff d + 5) = rd d (thoff d + 8) / 16 % 16 * 16 := by
  rw [rev_eq, rd_seal_csum_frame _ _ _ _ _ _ (by omega) (by omega),
    rd_rev_fields_5 d _ h20 hn]

theorem rd_rev_8 (d : List Nat) (h20 : 20 ≤ thoff d) (hn : thoff d + 10 ≤ d.length) :
    rd (rev d) (thoff d + 8) = rd d (thoff d + 8) % 16 * 2 + 1 := by
  rw [rev_eq, rd_seal_csum_frame _ _ _ _ _ _ (by omega) (by omega),
    rd_rev_fields_8 d _ h20 hn]

theorem rd_rev_9 (d : List Nat) (h20 : 20 ≤ thoff d) (hn : thoff d + 10 ≤ d.length) :
    rd (rev d) (thoff d + 9) = 0 := by
  rw [rev_eq, rd_seal_csum_frame _ _ _ _ _ _ (by omega) (by omega),
    rd_rev_fields_9 d _ h20 hn]

/-- The forward transcoder leaves a self-consistent UDP pseudo-header checksum. -/
theorem pseudo_csum_fwd (d : List Nat) (hb : ∀ b ∈ d, b < 256) (h20 : 20 ≤ thoff d)
    (hn : thoff d + 16 ≤ d.length) (hl : d.length < 4294967296) :
    pseudo_csum (fwd d) IPPROTO_UDP = 0 := by
  have h := pseudo_csum_seal (fwd_fields d 0 (thoff d) d.length) IPPROTO_UDP
    (bytes_fwd_fields _ _ _ _ hb)
    (by rw [thoff_fwd_fields d _ h20]; exact h20)
    (by rw [thoff_fwd_fields d _ h20, length_fwd_fields]; omega)
    (by rw [length_fwd_fields]; exact hl) (by decide)
  rw [thoff_fwd_fields d _ h20, length_fwd_fields] at h
  exact h

/-- The reverse transcoder leaves a self-consistent DCCP pseudo-header checksum. -/
theorem pseudo_csum_rev (d : List Nat) (hb : ∀ b ∈ d, b < 256) (h20 : 20 ≤ thoff d)
    (hn : thoff d + 16 ≤ d.length) (hl : d.length < 4294967296) :
    pseudo_csum (rev d) IPPROTO_DCCP = 0 := by
  have h := pseudo_csum_seal (rev_fields d 0 (thoff d)) IPPROTO_DCCP
    (bytes_rev_fields _ _ _ hb)
    (by rw [thoff_rev_fields d h20]; exact h20)
    (by rw [thoff_rev_fields d h20, length_rev_fields]; omega)
    (by rw [length_rev_fields]; exact hl) (by decide)
  rw [thoff_rev_fields d h20, length_rev_fields] at h
  exact h

/-! ## The hooks on well-formed packets -/

theorem WellFormed.h20 {skb : SkBuff} (h : WellFormed skb) : 20 ≤ thoff skb.data := by
  have := h.2.2.1
  unfold thoff
  omega

theorem ports_out_of_range_eq_false (cfg : Config) (d : List Nat) (hg : PortGate cfg d) :
    ports_out_of_range cfg d (thoff d) = false := by
  unfold ports_out_of_range
  rcases hg with h | h <;> simp [h]

theorem dccp_hook_eligible (cfg : Config) (g : Globals) (p : SkBuff) (he : Eligible cfg p) :
    dccp_hook cfg g p = ⟨NF_ACCEPT, { p with data := fwd p.data },
      { g with csum_d := (dccp_to_udp p.data 0 (thoff p.data) p.data.length).2 }⟩ := by
  obtain ⟨⟨hnet, htr, _, _, _, _⟩, hproto, hx, hg⟩ := he
  unfold dccp_hook skb_network_header dccp_hdr skb_len
  rw [hnet, htr]
  simp only [hproto, hx, ports_out_of_range_eq_false cfg p.data hg]
  simp [fwd]

theorem dccp_hook_data (cfg : Config) (g : Globals) (p : SkBuff) (he : Eligible cfg p) :
    (dccp_hook cfg g p).skb.data = fwd p.data := by
  rw [dccp_hook_eligible cfg g p he]

theorem wellFormed_fwd (p : SkBuff) (h : WellFormed p) :
    WellFormed { p with data := fwd p.data } := by
  have h20 := h.h20
  obtain ⟨hnet, htr, h5, hlen, h32, hb⟩ := h
  refine ⟨hnet, ?_, ?_, ?_, ?_, bytes_fwd _ hb⟩
  · show p.transport_header = some (thoff (fwd p.data))
    rw [thoff_fwd _ h20, htr]
  · show 5 ≤ iph_ihl (fwd p.data) 0
    have := thoff_fwd _ h20
    unfold thoff at this
    omega
  · show thoff (fwd p.data) + 16 ≤ (fwd p.data).length
    rw [thoff_fwd _ h20, length_fwd]
    exact hlen
  · show (fwd p.data).length < 4294967296
    rw [length_fwd]
    exact h32

theorem udp_hook_accept (cfg : Config) (g : Globals) (u : SkBuff) (h : WellFormed u)
    (hp : iph_protocol u.data 0 = IPPROTO_UDP) (hg : PortGate cfg u.data)
    (hlin : skb_is_nonlinear u = false ∨ u.linearize_fails = false)
    (hcs : skb_csum_unnecessary u = true ∨ pseudo_csum u.data IPPROTO_UDP = 0) :
    (udp_hook cfg g u).verdict = NF_ACCEPT ∧ (udp_hook cfg g u).skb.data = rev u.data := by
  obtain ⟨hnet, htr, _, _, _, _⟩ := h
  have hl : (skb_is_nonlinear u && u.linearize_fails) = false := by
    rcases hlin with h | h <;> simp [h]
  unfold udp_hook skb_network_header dccp_hdr
  rw [hnet, htr]
  simp only [hp, ports_out_of_range_eq_false cfg u.data hg, hl]
  have hd : (if skb_is_nonlinear u = true then skb_linearize u else u).data = u.data := by
    split <;> rfl
  have hc : skb_csum_unnecessary (if skb_is_nonlinear u = true then skb_linearize u else u)
      = skb_csum_unnecessary u := by
    split <;> rfl
  generalize (if skb_is_nonlinear u = true then skb_linearize u else u) = u' at hd hc
  simp only [skb_len, hd, hc]
  by_cases hcu : skb_csum_unnecessary u = true
  · simp [hcu, rev]
  · have hz : pseudo_csum u.data IPPROTO_UDP = 0 := by
      rcases hcs with h | h
      · exact absurd h hcu
      · exact h
    have hz' : csum_tcpudp_magic (iph_saddr u.data 0) (iph_daddr u.data 0)
        (u32sub u.data.length (iph_ihl u.data 0 * 4)) IPPROTO_UDP
        (skb_checksum u.data (thoff u.data) (u32sub u.data.length (iph_ihl u.data 0 * 4)) 0)
          = 0 := hz
    simp [hcu, hz', rev]

theorem udp_hook_drop (cfg : Config) (g : Globals) (u : SkBuff) (h : WellFormed u)
    (hp : iph_protocol u.data 0 = IPPROTO_UDP) (hg : PortGate cfg u.data)
    (hcs : skb_csum_unnecessary u = false) (hne : pseudo_csum u.data IPPROTO_UDP ≠ 0) :
    (udp_hook cfg g u).verdict = NF_DROP := by
  obtain ⟨hnet, htr, _, _, _, _⟩ := h
  unfold udp_hook skb_network_header dccp_hdr
  rw [hnet, htr]
  simp only [hp, ports_out_of_range_eq_false cfg u.data hg]
  by_cases hl : (skb_is_nonlinear u && u.linearize_fails) = true
  · simp [hl]
  · have hd : (if skb_is_nonlinear u = true then skb_linearize u else u).data = u.data := by
      split <;> rfl
    have hc : skb_csum_unnecessary (if skb_is_nonlinear u = true then skb_linearize u else u)
        = skb_csum_unnecessary u := by
      split <;> rfl
    generalize (if skb_is_nonlinear u = true then skb_linearize u else u) = u' at hd hc
    have hz' : csum_tcpudp_magic (iph_saddr u.data 0) (iph_daddr u.data 0)
        (u32sub u.data.length (iph_ihl u.data 0 * 4)) IPPROTO_UDP
        (skb_checksum u.data (thoff u.data) (u32sub u.data.length (iph_ihl u.data 0 * 4)) 0)
          ≠ 0 := hne
    simp [hl, skb_len, hd, hc, hcs, hz']

theorem portGate_of_rd (cfg : Config) (d e : List Nat) (ht : thoff e = thoff d)
    (h : ∀ k, k < 4 → rd e (thoff d + k) = rd d (thoff d + k)) (hg : PortGate cfg d) :
    PortGate cfg e := by
  unfold PortGate dccph_sport dccph_dport rd16 at hg ⊢
  rw [ht]
  have h0 := h 0 (by omega)
  have h1 := h 1 (by omega)
  have h2 := h 2 (by omega)
  have h3 := h 3 (by omega)
  rw [Nat.add_zero] at h0
  rw [h0, h1, h2, show thoff d + 2 + 1 = thoff d + 3 by omega, h3]
  rw [show thoff d + 2 + 1 = thoff d + 3 by omega] at hg
  exact hg

theorem portGate_fwd (cfg : Config) (d : List Nat) (h20 : 20 ≤ thoff d)
    (hg : PortGate cfg d) : PortGate cfg (fwd d) :=
  portGate_of_rd cfg d (fwd d) (thoff_fwd d h20)
    (fun k hk => rd_fwd_frame d _ h20 (by omega) (by omega)) hg

/-! ## The hooks without the 16-byte condition -/

theorem wellFormed_inside {skb : SkBuff} (h : WellFormed skb) : HeaderInside skb := by
  obtain ⟨h1, h2, h3, h4, h5, h6⟩ := h
  exact ⟨h1, h2, h3, by omega, h5, h6⟩

theorem lt_length_of_rd_ne_zero (d : List Nat) (i : Nat) (h : rd d i ≠ 0) : i < d.length := by
  by_contra hc
  apply h
  unfold rd
  exact List.getD_eq_default _ _ (by omega)

theorem forwardGate_h20 {cfg : Config} {skb : SkBuff} (h : ForwardGate cfg skb) :
    20 ≤ thoff skb.data := by
  have := h.2.2.1
  unfold thoff
  omega

/-- A packet with X = 1 has its transport byte 8 inside the packet. -/
theorem forwardGate_byte8 {cfg : Config} {skb : SkBuff} (h : ForwardGate cfg skb) :
    thoff skb.data + 9 ≤ skb.data.length := by
  have hx := h.2.2.2.2.1
  unfold dccph_x at hx
  have := lt_length_of_rd_ne_zero skb.data (thoff skb.data + 8) (by omega)
  omega

theorem eligible_gate {cfg : Config} {skb : SkBuff} (h : Eligible cfg skb) :
    ForwardGate cfg skb := by
  obtain ⟨⟨h1, h2, h3, _, _, _⟩, hp, hx, hg⟩ := h
  exact ⟨h1, h2, h3, hp, hx, hg⟩

theorem dccp_hook_gate (cfg : Config) (g : Globals) (p : SkBuff) (h : ForwardGate cfg p) :
    dccp_hook cfg g p = ⟨NF_ACCEPT, { p with data := fwd p.data },
      { g with csum_d := (dccp_to_udp p.data 0 (thoff p.data) p.data.length).2 }⟩ := by
  obtain ⟨hnet, htr, _, hproto, hx, hg⟩ := h
  unfold dccp_hook skb_network_header dccp_hdr skb_len
  rw [hnet, htr]
  simp only [hproto, hx, ports_out_of_range_eq_false cfg p.data hg]
  simp [fwd]

theorem take_wr_ge (d : List Nat) (t i v : Nat) (hi : t ≤ i) :
    (wr d i v).take t = d.take t := by
  unfold wr
  rw [List.set_take, List.set_eq_of_length_le]
  rw [List.length_take]
  omega

theorem take_wr16_ge (d : List Nat) (t i v : Nat) (hi : t ≤ i) :
    (wr16 d i v).take t = d.take t := by
  unfold wr16
  rw [take_wr_ge _ _ _ _ (by omega), take_wr_ge _ _ _ _ hi]

theorem wordSum_take_wr (d : List Nat) (t i v : Nat) (hi : i < t) (ht : t ≤ d.length) :
    wordSum ((wr d i v).take t) + rd d i * wt i = wordSum (d.take t) + v * wt i := by
  have hs := wordSum_set (d.take t) i v (by rw [List.length_take]; omega)
  have e : (d.take t).getD i 0 = rd d i := by
    unfold rd
    simp only [List.getD_eq_getElem?_getD, List.getElem?_take, if_pos hi]
  rw [e] at hs
  unfold wr
  rw [List.set_take]
  exact hs

theorem wordSum_take_wr16_check (d : List Nat) (t v : Nat) (ht : 12 ≤ t) (hn : t ≤ d.length) :
    wordSum ((wr16 d 10 v).take t) + rd16 d 10 = wordSum (d.take t) + v % 65536 := by
  unfold wr16 rd16
  have h1 := wordSum_take_wr d t 10 (v / 256 % 256) (by omega) hn
  have h2 := wordSum_take_wr (wr d 10 (v / 256 % 256)) t (10 + 1) (v % 256) (by omega)
    (by rw [length_wr]; exact hn)
  rw [rd_wr_ne _ _ _ _ (by omega)] at h2
  have w1 : wt 10 = 256 := rfl
  have w2 : wt (10 + 1) = 1 := rfl
  rw [w1] at h1
  rw [w2] at h2
  omega

theorem bytes_take (d : List Nat) (n : Nat) (hb : ∀ b ∈ d, b < 256) :
    ∀ b ∈ d.take n, b < 256 :=
  fun b h => hb b (List.mem_of_mem_take h)

theorem ip_fast_csum_eq (d : List Nat) (ihl : Nat) (hb : ∀ b ∈ d, b < 256) :
    ip_fast_csum d 0 ihl = 65535 - ocfold (wordSum (d.take (ihl * 4))) := by
  unfold ip_fast_csum
  rw [List.drop_zero, csum_fold_eq _ (csum_partial_lt _ _ (bytes_take d _ hb) (by norm_num)),
    ocfold_csum_bytes, Nat.zero_add]

/-- Storing `ip_fast_csum` of a header whose check field is zero makes the header sum fold
to all ones. -/
theorem ip_seal (x : List Nat) (hb : ∀ b ∈ x, b < 256) (h20 : 20 ≤ thoff x)
    (hn : thoff x ≤ x.length) :
    ocfold (wordSum ((wr16 (wr16 x 10 0) 10
      (ip_fast_csum (wr16 x 10 0) 0 (iph_ihl (wr16 x 10 0) 0))).take (thoff x))) = 65535 := by
  generalize hy : wr16 x 10 0 = y
  have hby : ∀ b ∈ y, b < 256 := by rw [← hy]; exact bytes_wr16 _ _ _ hb
  have hty : thoff y = thoff x := by rw [← hy, thoff_wr16 _ _ _ (by omega)]
  have hly : y.length = x.length := by rw [← hy, length_wr16]
  have hz : rd16 y 10 = 0 := by
    rw [← hy]
    unfold rd16
    rw [rd_wr16_hi _ _ _ (by omega), rd_wr16_lo _ _ _ (by omega)]
  have hc := ip_fast_csum_eq y (iph_ihl y 0) hby
  have hm : iph_ihl y 0 * 4 = thoff x := by rw [← hty]; unfold thoff; omega
  rw [hm] at hc
  generalize ip_fast_csum y 0 (iph_ihl y 0) = c at hc ⊢
  have hs := wordSum_take_wr16_check y (thoff x) c (by omega) (by omega)
  rw [hz] at hs
  have hle := ocfold_le (wordSum (y.take (thoff x)))
  have hseal := ocfold_seal (wordSum (y.take (thoff x)))
  have : wordSum ((wr16 y 10 c).take (thoff x))
      = wordSum (y.take (thoff x)) + (65535 - ocfold (wordSum (y.take (thoff x)))) := by
    omega
  rw [this, hseal]

theorem fwd_fields_ip (d : List Nat) (t len : Nat) :
    ∃ x, fwd_fields d 0 t len = wr16 (wr16 x 10 0) 10
        (ip_fast_csum (wr16 x 10 0) 0 (iph_ihl (wr16 x 10 0) 0)) ∧
      x = wr (wr16 (wr (wr d (t + 8) (mk_ccval_type (dccph_type d t) (dccph_ccval d t)))
        (t + 9) (dccph_doff (wr d (t + 8) (mk_ccval_type (dccph_type d t) (dccph_ccval d t))) t))
        (t + 4) (u32sub len (iph_ihl (wr (wr d (t + 8)
          (mk_ccval_type (dccph_type d t) (dccph_ccval d t))) (t + 9)
          (dccph_doff (wr d (t + 8) (mk_ccval_type (dccph_type d t) (dccph_ccval d t))) t))
          0 * 4))) 9 IPPROTO_UDP :=
  ⟨_, rfl, by simp only [Nat.zero_add]⟩

/-- After the forward rewrite the IP header sum folds to all ones. -/
theorem hdr_sum_fwd (d : List Nat) (hb : ∀ b ∈ d, b < 256) (h20 : 20 ≤ thoff d)
    (hn : thoff d + 16 ≤ d.length) :
    ocfold (wordSum ((fwd d).take (thoff d))) = 65535 := by
  rw [fwd_eq]
  unfold seal_csum
  simp only
  rw [take_wr16_ge _ _ _ _ (by omega), take_wr16_ge _ _ _ _ (by omega)]
  obtain ⟨x, hx, hxd⟩ := fwd_fields_ip d (thoff d) d.length
  rw [hx]
  have hbx : ∀ b ∈ x, b < 256 := by
    rw [hxd]
    refine bytes_wr _ _ _ (bytes_wr16 _ _ _ (bytes_wr _ _ _
      (bytes_wr _ _ _ hb (mk_ccval_type_lt _ _)) ?_)) (by decide)
    exact rd_lt_of_bytes _ (bytes_wr _ _ _ hb (mk_ccval_type_lt _ _)) _
  have hlx : x.length = d.length := by
    rw [hxd]
    simp only [length_wr, length_wr16]
  have htx : thoff x = thoff d := by
    rw [hxd, thoff_wr _ _ _ (by omega), thoff_wr16 _ _ _ (by omega),
      thoff_wr _ _ _ (by omega), thoff_wr _ _ _ (by omega)]
  have := ip_seal x hbx (by omega) (by omega)
  rw [htx] at this
  exact this

/-! ## Round trip and checksum validity -/

/-- C1: round trip. For every eligible packet (well-formed IPv4, protocol DCCP, X = 1, a port in
range) in a linear buffer, whether or not its checksum is certified by a lower layer, `udp_hook`
applied to the output of `dccp_hook` returns ACCEPT and yields protocol DCCP with source port, destination port, CCVal,
Type, Data Offset and transport bytes 10..15 equal to the original, X = 1, CsCov = 0 and
Reserved = 0. -/
theorem C1_round_trip (cfg : Config) (g1 g2 : Globals) (p : SkBuff) (he : Eligible cfg p)
    (hlin : skb_is_nonlinear p = false) :
    (round_trip cfg g1 g2 p).verdict = NF_ACCEPT ∧
    iph_protocol (round_trip cfg g1 g2 p).skb.data 0 = IPPROTO_DCCP ∧
    dccph_sport (round_trip cfg g1 g2 p).skb.data (thoff (round_trip cfg g1 g2 p).skb.data)
      = dccph_sport p.data (thoff p.data) ∧
    dccph_dport (round_trip cfg g1 g2 p).skb.data (thoff (round_trip cfg g1 g2 p).skb.data)
      = dccph_dport p.data (thoff p.data) ∧
    dccph_ccval (round_trip cfg g1 g2 p).skb.data (thoff (round_trip cfg g1 g2 p).skb.data)
      = dccph_ccval p.data (thoff p.data) ∧
    dccph_type (round_trip cfg g1 g2 p).skb.data (thoff (round_trip cfg g1 g2 p).skb.data)
      = dccph_type p.data (thoff p.data) ∧
    dccph_doff (round_trip cfg g1 g2 p).skb.data (thoff (round_trip cfg g1 g2 p).skb.data)
      = dccph_doff p.data (thoff p.data) ∧
    (∀ k, 10 ≤ k → k ≤ 15 →
      tbyte (round_trip cfg g1 g2 p).skb.data k = tbyte p.data k) ∧
    dccph_x (round_trip cfg g1 g2 p).skb.data (thoff (round_trip cfg g1 g2 p).skb.data) = 1 ∧
    dccph_cscov (round_trip cfg g1 g2 p).skb.data (thoff (round_trip cfg g1 g2 p).skb.data)
      = 0 ∧
    dccph_reserved (round_trip cfg g1 g2 p).skb.data (thoff (round_trip cfg g1 g2 p).skb.data)
      = 0 := by
  have hwf := he.1
  have h20 := hwf.h20
  obtain ⟨_, _, _, hlen, h32, hb⟩ := hwf
  have hq : dccp_hook cfg g1 p = _ := dccp_hook_eligible cfg g1 p he
  have hwq := wellFormed_fwd p he.1
  have htq : thoff (fwd p.data) = thoff p.data := thoff_fwd _ h20
  have hlq : (fwd p.data).length = p.data.length := length_fwd _
  have hgq : PortGate cfg (fwd p.data) := portGate_fwd cfg _ h20 he.2.2.2
  have hacc := udp_hook_accept cfg g2 { p with data := fwd p.data } hwq
    (rd_fwd_proto p.data h20 (by omega)) hgq (Or.inl hlin)
    (Or.inr (pseudo_csum_fwd p.data hb h20 hlen h32))
  have hr : (round_trip cfg g1 g2 p).skb.data = rev (fwd p.data) := by
    unfold round_trip
    rw [hq]
    exact hacc.2
  have hv : (round_trip cfg g1 g2 p).verdict = NF_ACCEPT := by
    unfold round_trip
    rw [hq]
    exact hacc.1
  have h20q : 20 ≤ thoff (fwd p.data) := by omega
  have hlenq : thoff (fwd p.data) + 16 ≤ (fwd p.data).length := by omega
  have htr : thoff (rev (fwd p.data)) = thoff p.data := by rw [thoff_rev _ h20q, htq]
  have r4 := rd_rev_4 _ h20q (by omega)
  have r5 := rd_rev_5 _ h20q (by omega)
  have r8 := rd_rev_8 _ h20q (by omega)
  have f8 := rd_fwd_8 _ h20 (by omega)
  have f9 := rd_fwd_9 _ h20 (by omega)
  rw [htq] at r4 r5 r8
  rw [f9] at r4
  rw [f8] at r5 r8
  have frame : ∀ j, j ≠ 9 → (j < 9 ∨ 11 < j) → (j < thoff p.data + 4 ∨ thoff p.data + 9 < j) →
      rd (rev (fwd p.data)) j = rd p.data j := by
    intro j h9 h1 h2
    rw [rd_rev_frame _ j h20q h9 (by omega), rd_fwd_frame _ j h20 h1 h2]
  refine ⟨hv, ?_⟩
  rw [hr, htr]
  refine ⟨rd_rev_proto _ h20q (by omega), ?_, ?_, ?_, ?_, ?_, ?_, ?_, ?_, ?_⟩
  · unfold dccph_sport rd16
    rw [frame _ (by omega) (by omega) (by omega), frame _ (by omega) (by omega) (by omega)]
  · unfold dccph_dport rd16
    rw [frame _ (by omega) (by omega) (by omega), frame _ (by omega) (by omega) (by omega)]
  · unfold dccph_ccval at r5 ⊢
    rw [r5]
    unfold mk_ccval_type
    omega
  · unfold dccph_type at r8 ⊢
    rw [r8]
    unfold mk_ccval_type
    omega
  · unfold dccph_doff at r4 ⊢
    exact r4
  · intro k h10 h15
    unfold tbyte
    rw [htr]
    exact frame _ (by omega) (by omega) (by omega)
  · unfold dccph_x
    rw [r8]
    omega
  · unfold dccph_cscov
    rw [r5]
    omega
  · unfold dccph_reserved
    rw [r8]
    omega

theorem C1_round_trip_witness :
    Eligible defaultConfig scenarioSkb ∧
    (round_trip defaultConfig g0 g0 scenarioSkb).verdict = NF_ACCEPT :=
  ⟨by decide,
   (C1_round_trip defaultConfig g0 g0 scenarioSkb (by decide) (by decide)).1⟩

/-- C2: checksum validity after forward. For every eligible packet, after `dccp_hook` the
pseudo-header checksum `csum_tcpudp_magic` over source address, destination address, protocol 17,
transport length `len - 4*ihl` and the whole transport segment (stored checksum included) is
zero. -/
theorem C2_forward_checksum_valid (cfg : Config) (g : Globals) (p : SkBuff)
    (he : Eligible cfg p) :
    csum_tcpudp_magic (iph_saddr (dccp_hook cfg g p).skb.data 0)
      (iph_daddr (dccp_hook cfg g p).skb.data 0)
      ((dccp_hook cfg g p).skb.data.length - 4 * iph_ihl (dccp_hook cfg g p).skb.data 0)
      IPPROTO_UDP
      (skb_checksum (dccp_hook cfg g p).skb.data (4 * iph_ihl (dccp_hook cfg g p).skb.data 0)
        ((dccp_hook cfg g p).skb.data.length - 4 * iph_ihl (dccp_hook cfg g p).skb.data 0) 0)
      = 0 := by
  have hwf := he.1
  have h20 := hwf.h20
  obtain ⟨_, _, _, hlen, h32, hb⟩ := hwf
  rw [dccp_hook_data cfg g p he]
  have h := pseudo_csum_fwd p.data hb h20 hlen h32
  have htq : thoff (fwd p.data) = thoff p.data := thoff_fwd _ h20
  have hu : u32sub (fwd p.data).length (iph_ihl (fwd p.data) 0 * 4)
      = (fwd p.data).length - 4 * iph_ihl (fwd p.data) 0 := by
    apply u32sub_len
    · show thoff (fwd p.data) ≤ _
      rw [htq, length_fwd]; omega
    · rw [length_fwd]; exact h32
  unfold pseudo_csum at h
  rw [hu] at h
  exact h

theorem C2_forward_checksum_valid_witness :
    Eligible defaultConfig scenarioSkb ∧
    csum_tcpudp_magic 0x0A000001 0x0A000002 32 IPPROTO_UDP
      (skb_checksum (dccp_hook defaultConfig g0 scenarioSkb).skb.data 20 32 0) = 0 :=
  ⟨by decide, C2_forward_checksum_valid defaultConfig g0 scenarioSkb (by decide)⟩

/-! ## Drop on tamper -/

theorem flipBit_cases (b k : Nat) (hb : b < 256) (hk : k < 8) :
    flipBit b k < 256 ∧ 1 ≤ 2 ^ k ∧ 2 ^ k ≤ 128 ∧
      (flipBit b k = b + 2 ^ k ∨ flipBit b k + 2 ^ k = b) := by
  unfold flipBit
  interval_cases k <;> simp only [Nat.reducePow] <;> split_ifs <;> omega

theorem wt_cases (i : Nat) : wt i = 1 ∨ wt i = 256 := by
  unfold wt
  split_ifs <;> simp

theorem pseudo_csum_wr_ne_zero (d : List Nat) (i e f : Nat) (hb : ∀ b ∈ d, b < 256)
    (h20 : 20 ≤ thoff d) (hl : d.length < 4294967296) (hi : thoff d ≤ i) (hn : i < d.length)
    (hz : pseudo_csum d IPPROTO_UDP = 0) (hf : f < 256) (he1 : 1 ≤ e) (he2 : e ≤ 128)
    (hfe : f = rd d i + e ∨ f + e = rd d i) :
    pseudo_csum (wr d i f) IPPROTO_UDP ≠ 0 := by
  have hT := total_wr d i f IPPROTO_UDP h20 hi hn
  have hz0 := pseudo_csum_eq d IPPROTO_UDP hb (by omega) hl (by decide)
  have hle := ocfold_le (total d IPPROTO_UDP)
  have hmax : ocfold (total d IPPROTO_UDP) = 65535 := by omega
  obtain ⟨hne, hmod⟩ := (ocfold_eq_max_iff _).1 hmax
  rw [pseudo_csum_eq _ IPPROTO_UDP (bytes_wr _ _ _ hb hf)
    (by rw [thoff_wr _ _ _ (by omega), length_wr]; omega) (by rw [length_wr]; exact hl)
    (by decide)]
  have hle' := ocfold_le (total (wr d i f) IPPROTO_UDP)
  intro hcon
  have hmax' : ocfold (total (wr d i f) IPPROTO_UDP) = 65535 := by omega
  obtain ⟨_, hmod'⟩ := (ocfold_eq_max_iff _).1 hmax'
  generalize total (wr d i f) IPPROTO_UDP = T' at hT hmod'
  generalize total d IPPROTO_UDP = T at hT hmod
  generalize rd d i = b at hT hfe
  rcases wt_cases (i - thoff d) with hw | hw <;> rw [hw] at hT <;>
    rcases hfe with h | h <;> omega

/-- C3 (amended): drop on tamper. For every eligible packet whose checksum is not certified and
every bit of the transport header or payload of the output of `dccp_hook`, if the packet with
that bit inverted still has its source or destination port in range (always so for a bit at
transport byte 4 or later), `udp_hook` returns DROP. -/
theorem C3_tamper_drop (cfg : Config) (g1 g2 : Globals) (p : SkBuff) (i k : Nat)
    (he : Eligible cfg p) (hcs : skb_csum_unnecessary p = false)
    (hi : thoff p.data ≤ i) (hn : i < p.data.length) (hk : k < 8)
    (hg : thoff p.data + 4 ≤ i ∨ PortGate cfg (flipAt (dccp_hook cfg g1 p).skb i k).data) :
    (udp_hook cfg g2 (flipAt (dccp_hook cfg g1 p).skb i k)).verdict = NF_DROP := by
  have hwf := he.1
  have h20 := hwf.h20
  obtain ⟨hnet, htr, _, hlen, h32, hb⟩ := hwf
  rw [dccp_hook_eligible cfg g1 p he] at hg ⊢
  have htq : thoff (fwd p.data) = thoff p.data := thoff_fwd _ h20
  have hlq : (fwd p.data).length = p.data.length := length_fwd _
  have hbq := bytes_fwd _ hb
  obtain ⟨hf, he1, he2, hfe⟩ := flipBit_cases (rd (fwd p.data) i) k (rd_lt_of_bytes _ hbq i) hk
  generalize hfv : flipBit (rd (fwd p.data) i) k = f at hf hfe
  have hdata : (flipAt { p with data := fwd p.data } i k).data = wr (fwd p.data) i f := by
    show wr (fwd p.data) i (flipBit (rd (fwd p.data) i) k) = _
    rw [hfv]
  have htf : thoff (wr (fwd p.data) i f) = thoff p.data := by
    rw [thoff_wr _ _ _ (by omega), htq]
  have hgate : PortGate cfg (wr (fwd p.data) i f) := by
    rcases hg with h | h
    · exact portGate_of_rd cfg (fwd p.data) _ (by rw [thoff_wr _ _ _ (by omega)])
        (fun j hj => rd_wr_ne _ _ _ _ (by omega)) (portGate_fwd cfg _ h20 he.2.2.2)
    · rw [hdata] at h
      exact h
  have hwf' : WellFormed (flipAt { p with data := fwd p.data } i k) := by
    refine ⟨hnet, ?_, ?_, ?_, ?_, ?_⟩
    · show p.transport_header = some (thoff (flipAt { p with data := fwd p.data } i k).data)
      rw [hdata, htf, htr]
    · show 5 ≤ iph_ihl (flipAt { p with data := fwd p.data } i k).data 0
      rw [hdata]
      unfold thoff at htf h20
      omega
    · rw [hdata, htf, length_wr, hlq]
      exact hlen
    · rw [hdata, length_wr, hlq]
      exact h32
    · rw [hdata]
      exact bytes_wr _ _ _ hbq hf
  apply udp_hook_drop cfg g2 _ hwf'
  · rw [hdata]
    unfold iph_protocol
    rw [rd_wr_ne _ _ _ _ (by omega)]
    exact rd_fwd_proto p.data h20 (by omega)
  · rw [hdata]
    exact hgate
  · exact hcs
  · rw [hdata]
    exact pseudo_csum_wr_ne_zero (fwd p.data) i (2 ^ k) f hbq (by omega) (by omega) (by omega)
      (by omega) (pseudo_csum_fwd p.data hb h20 hlen h32) hf he1 he2 hfe

theorem C3_tamper_drop_witness :
    Eligible defaultConfig scenarioSkb ∧
    (udp_hook defaultConfig g0
      (flipAt (dccp_hook defaultConfig g0 scenarioSkb).skb 40 3)).verdict = NF_DROP :=
  ⟨by decide,
   C3_tamper_drop defaultConfig g0 g0 scenarioSkb 40 3 (by decide) (by decide) (by decide)
     (by decide) (by decide) (Or.inl (by decide))⟩

/-- C3 as stated fails: inverting the lowest bit of the source port of a converted packet
whose destination port is out of range takes both ports out of range, and `udp_hook`
accepts the tampered packet unchanged instead of dropping it. -/
theorem C3_counterexample :
    Eligible defaultConfig onePortSkb ∧
    skb_csum_unnecessary onePortSkb = false ∧
    thoff onePortSkb.data ≤ 21 ∧ 21 < onePortSkb.data.length ∧
    udp_hook defaultConfig g0 (flipAt (dccp_hook defaultConfig g0 onePortSkb).skb 21 0)
      = ⟨NF_ACCEPT, flipAt (dccp_hook defaultConfig g0 onePortSkb).skb 21 0, g0⟩ ∧
    (udp_hook defaultConfig g0
      (flipAt (dccp_hook defaultConfig g0 onePortSkb).skb 21 0)).verdict ≠ NF_DROP := by
  decide

/-! ## Pass-through cases, length, verdict -/

/-- C4: non-interference. A packet whose IP protocol is not the one the hook expects (DCCP for
`dccp_hook`, UDP for `udp_hook`), or whose source and destination port are both outside the
configured range, is accepted by that hook with buffer (every byte) and scratch state
unchanged. -/
theorem C4_non_interference (cfg : Config) (g : Globals) (skb : SkBuff) :
    (((∀ iph, skb_network_header skb = some iph → iph_protocol skb.data iph ≠ IPPROTO_DCCP) ∨
      (∀ dh, dccp_hdr skb = some dh →
        PORT_IN_RANGE cfg (dccph_sport skb.data dh) = false ∧
        PORT_IN_RANGE cfg (dccph_dport skb.data dh) = false)) →
      dccp_hook cfg g skb = ⟨NF_ACCEPT, skb, g⟩) ∧
    (((∀ iph, skb_network_header skb = some iph → iph_protocol skb.data iph ≠ IPPROTO_UDP) ∨
      (∀ dh, dccp_hdr skb = some dh →
        PORT_IN_RANGE cfg (dccph_sport skb.data dh) = false ∧
        PORT_IN_RANGE cfg (dccph_dport skb.data dh) = false)) →
      udp_hook cfg g skb = ⟨NF_ACCEPT, skb, g⟩) := by
  constructor
  · intro h
    unfold dccp_hook
    cases hn : skb_network_header skb with
    | none => rfl
    | some iph =>
      simp only
      split_ifs with hp
      · cases ht : dccp_hdr skb with
        | none => rfl
        | some dh =>
          simp only
          split_ifs with hx hg
          · rfl
          · rfl
          · exfalso
            rcases h with h | h
            · exact h iph hn hp
            · obtain ⟨h1, h2⟩ := h dh ht
              simp [ports_out_of_range, h1, h2] at hg
      · rfl
  · intro h
    unfold udp_hook
    cases hn : skb_network_header skb with
    | none => rfl
    | some iph =>
      simp only
      by_cases hp : iph_protocol skb.data iph = IPPROTO_UDP
      · cases ht : dccp_hdr skb with
        | none => simp [hp]
        | some dh =>
          have hg : ports_out_of_range cfg skb.data dh = true := by
            rcases h with h | h
            · exact absurd hp (h iph hn)
            · obtain ⟨h1, h2⟩ := h dh ht
              simp [ports_out_of_range, h1, h2]
          simp [hp, hg]
      · simp [hp]

theorem C4_non_interference_witness :
    dccp_hook defaultConfig g0 outOfRangeSkb = ⟨NF_ACCEPT, outOfRangeSkb, g0⟩ ∧
    udp_hook defaultConfig g0 outOfRangeSkb = ⟨NF_ACCEPT, outOfRangeSkb, g0⟩ :=
  ⟨(C4_non_interference defaultConfig g0 outOfRangeSkb).1
      (Or.inr (fun dh h => by
        have e : dh = 20 := (Option.some.inj h).symm
        subst e
        decide)),
   (C4_non_interference defaultConfig g0 outOfRangeSkb).2
      (Or.inl (fun iph h => by
        have e : iph = 0 := (Option.some.inj h).symm
        subst e
        decide))⟩

/-- C5: non-extended rejection. A packet whose X bit (lowest bit of transport byte 8) is 0 is
accepted by `dccp_hook` with buffer and scratch state unchanged, whatever its ports. -/
theorem C5_non_extended_untouched (cfg : Config) (g : Globals) (skb : SkBuff)
    (hx : ∀ dh, dccp_hdr skb = some dh → dccph_x skb.data dh = 0) :
    dccp_hook cfg g skb = ⟨NF_ACCEPT, skb, g⟩ := by
  unfold dccp_hook
  cases hn : skb_network_header skb with
  | none => rfl
  | some iph =>
    simp only
    split_ifs with hp
    · cases ht : dccp_hdr skb with
      | none => rfl
      | some dh => simp [hx dh ht]
    · rfl

theorem C5_non_extended_untouched_witness :
    iph_protocol shortHeaderSkb.data 0 = IPPROTO_DCCP ∧
    dccph_x shortHeaderSkb.data 20 = 0 ∧
    dccp_hook defaultConfig g0 shortHeaderSkb = ⟨NF_ACCEPT, shortHeaderSkb, g0⟩ :=
  ⟨by decide, by decide,
   C5_non_extended_untouched defaultConfig g0 shortHeaderSkb (fun dh h => by
     have e : dh = 20 := (Option.some.inj h).symm
     subst e
     decide)⟩

/-- C6: length correctness. For every packet that passes the tests of `dccp_hook` (protocol
DCCP, X = 1, a port in range), of any length, with `len - 4*ihl < 65536`, after `dccp_hook`
transport bytes 4..5 read big-endian equal `len - 4*ihl`: for every payload size, an empty
payload after the 12-byte header included. -/
theorem C6_length_field (cfg : Config) (g : Globals) (p : SkBuff) (hgate : ForwardGate cfg p)
    (hlen : p.data.length - 4 * iph_ihl p.data 0 < 65536) :
    rd16 (dccp_hook cfg g p).skb.data (thoff (dccp_hook cfg g p).skb.data + 4)
      = p.data.length - 4 * iph_ihl p.data 0 := by
  have h20 := forwardGate_h20 hgate
  have h9 := forwardGate_byte8 hgate
  have hihl : iph_ihl p.data 0 < 16 := Nat.mod_lt _ (by norm_num)
  rw [dccp_hook_gate cfg g p hgate]
  show rd16 (fwd p.data) (thoff (fwd p.data) + 4) = p.data.length - 4 * iph_ihl p.data 0
  rw [thoff_fwd _ h20, rd16_fwd_len _ h20 (by omega),
    u32sub_len _ _ (by unfold thoff at h9; omega) (by omega)]
  exact Nat.mod_eq_of_lt hlen

theorem C6_length_field_witness :
    ForwardGate defaultConfig emptyPayloadSkb ∧
    emptyPayloadSkb.data.length - 4 * iph_ihl emptyPayloadSkb.data 0 = 12 ∧
    rd16 (dccp_hook defaultConfig g0 emptyPayloadSkb).skb.data 24 = 12 ∧
    rd16 (dccp_hook defaultConfig g0 scenarioSkb).skb.data 24 = 32 :=
  ⟨by decide, by decide,
   C6_length_field defaultConfig g0 emptyPayloadSkb (by decide) (by decide),
   C6_length_field defaultConfig g0 scenarioSkb (by decide) (by decide)⟩

/-- C7: reverse verdict. `udp_hook` returns DROP exactly when the packet has protocol UDP, a
transport header, a source or destination port in range, and either the buffer is non-linear
and linearization fails, or the checksum is not certified and the UDP pseudo-header checksum
over the segment is non-zero; otherwise it returns ACCEPT. -/
theorem C7_reverse_verdict (cfg : Config) (g : Globals) (skb : SkBuff) :
    ((udp_hook cfg g skb).verdict = NF_DROP ↔
      ∃ iph dh, skb_network_header skb = some iph ∧
        iph_protocol skb.data iph = IPPROTO_UDP ∧ dccp_hdr skb = some dh ∧
        (PORT_IN_RANGE cfg (dccph_sport skb.data dh) = true ∨
          PORT_IN_RANGE cfg (dccph_dport skb.data dh) = true) ∧
        ((skb_is_nonlinear skb = true ∧ skb.linearize_fails = true) ∨
          (skb_csum_unnecessary skb = false ∧
            csum_tcpudp_magic (iph_saddr skb.data iph) (iph_daddr skb.data iph)
              (u32sub (skb_len skb) (iph_ihl skb.data iph * 4)) IPPROTO_UDP
              (skb_checksum skb.data dh (u32sub (skb_len skb) (iph_ihl skb.data iph * 4)) 0)
              ≠ 0))) ∧
    ((udp_hook cfg g skb).verdict = NF_DROP ∨ (udp_hook cfg g skb).verdict = NF_ACCEPT) := by
  unfold udp_hook
  cases hn : skb_network_header skb with
  | none => simp [NF_ACCEPT, NF_DROP]
  | some iph =>
    simp only
    by_cases hp : iph_protocol skb.data iph = IPPROTO_UDP
    · cases ht : dccp_hdr skb with
      | none => simp [hp, NF_ACCEPT, NF_DROP]
      | some dh =>
        simp only [hp, if_true]
        by_cases hg : ports_out_of_range cfg skb.data dh = true
        · have hg' := hg
          simp only [ports_out_of_range, Bool.and_eq_true, Bool.not_eq_true'] at hg'
          simp [hg, hg'.1, hg'.2, NF_ACCEPT, NF_DROP]
        · have hg' : PORT_IN_RANGE cfg (dccph_sport skb.data dh) = true ∨
              PORT_IN_RANGE cfg (dccph_dport skb.data dh) = true := by
            simp only [ports_out_of_range, Bool.and_eq_true, Bool.not_eq_true'] at hg
            by_cases h1 : PORT_IN_RANGE cfg (dccph_sport skb.data dh) = true
            · exact Or.inl h1
            · right
              by_contra h2
              exact hg ⟨by simpa using h1, by simpa using h2⟩
          by_cases hl : (skb_is_nonlinear skb && skb.linearize_fails) = true
          · have hl' := hl
            simp only [Bool.and_eq_true] at hl'
            simp [hg, hl, hl', hg', hp]
          · have hl' : ¬ (skb_is_nonlinear skb = true ∧ skb.linearize_fails = true) := by
              simpa using hl
            have hd : (if skb_is_nonlinear skb = true then skb_linearize skb else skb).data
                = skb.data := by
              split <;> rfl
            have hc : skb_csum_unnecessary
                (if skb_is_nonlinear skb = true then skb_linearize skb else skb)
                  = skb_csum_unnecessary skb := by
              split <;> rfl
            generalize (if skb_is_nonlinear skb = true then skb_linearize skb else skb) = u'
              at hd hc
            simp only [hg, hl, skb_len, hd, hc, Bool.false_eq_true, if_false]
            by_cases hcu : skb_csum_unnecessary skb = true
            · simp [hcu, hl', NF_ACCEPT, NF_DROP]
            · have hcu' : skb_csum_unnecessary skb = false := by simpa using hcu
              by_cases hm : csum_tcpudp_magic (iph_saddr skb.data iph) (iph_daddr skb.data iph)
                  (u32sub skb.data.length (iph_ihl skb.data iph * 4)) IPPROTO_UDP
                  (skb_checksum skb.data dh
                    (u32sub skb.data.length (iph_ihl skb.data iph * 4)) 0) = 0
              · simp [hcu', hm, hl', NF_ACCEPT, NF_DROP]
              · simp [hcu', hm, hl', hg', hp]
    · simp [hp, NF_ACCEPT, NF_DROP]

/-! ## Reverse restoration, wire layout, IP header -/

theorem udp_hook_drop_linearize (cfg : Config) (g : Globals) (u : SkBuff) (h : WellFormed u)
    (hp : iph_protocol u.data 0 = IPPROTO_UDP) (hg : PortGate cfg u.data)
    (hl : (skb_is_nonlinear u && u.linearize_fails) = true) :
    (udp_hook cfg g u).verdict = NF_DROP := by
  obtain ⟨hnet, htr, _, _, _, _⟩ := h
  unfold udp_hook skb_network_header dccp_hdr
  rw [hnet, htr]
  simp [hp, ports_out_of_range_eq_false cfg u.data hg, hl]

theorem udp_hook_converted (cfg : Config) (g : Globals) (u : SkBuff) (h : WellFormed u)
    (hp : iph_protocol u.data 0 = IPPROTO_UDP) (hg : PortGate cfg u.data)
    (hv : (udp_hook cfg g u).verdict = NF_ACCEPT) :
    (udp_hook cfg g u).skb.data = rev u.data := by
  have hne : NF_ACCEPT ≠ NF_DROP := by decide
  by_cases hl : (skb_is_nonlinear u && u.linearize_fails) = true
  · rw [udp_hook_drop_linearize cfg g u h hp hg hl] at hv
    exact absurd hv.symm hne
  · have hlin : skb_is_nonlinear u = false ∨ u.linearize_fails = false := by
      cases h1 : skb_is_nonlinear u <;> cases h2 : u.linearize_fails <;> simp_all
    by_cases hcu : skb_csum_unnecessary u = true
    · exact (udp_hook_accept cfg g u h hp hg hlin (Or.inl hcu)).2
    · by_cases hz : pseudo_csum u.data IPPROTO_UDP = 0
      · exact (udp_hook_accept cfg g u h hp hg hlin (Or.inr hz)).2
      · rw [udp_hook_drop cfg g u h hp hg (by simpa using hcu) hz] at hv
        exact absurd hv.symm hne

/-- Byte 8 and byte 9 of the transport header after the forward rewrite, for every eligible
packet: byte 8 is `CCVal * 16 + Type`, byte 9 is the Data Offset. -/
theorem forward_bytes_8_9 (cfg : Config) (g : Globals) (p : SkBuff) (he : Eligible cfg p) :
    tbyte (dccp_hook cfg g p).skb.data 8
      = dccph_ccval p.data (thoff p.data) * 16 + dccph_type p.data (thoff p.data) ∧
    tbyte (dccp_hook cfg g p).skb.data 9 = dccph_doff p.data (thoff p.data) := by
  have hwf := he.1
  have h20 := hwf.h20
  obtain ⟨_, _, _, hlen, _, _⟩ := hwf
  rw [dccp_hook_data cfg g p he]
  unfold tbyte
  rw [thoff_fwd _ h20, rd_fwd_8 _ h20 (by omega), rd_fwd_9 _ h20 (by omega)]
  refine ⟨?_, rfl⟩
  unfold mk_ccval_type dccph_ccval dccph_type
  omega

/-- C9 at the scenario packet (Type 0, CCVal 2, Data Offset 3): after `dccp_hook` transport
byte 8 is 32 = CCVal * 16 + Type, not the 2 = Type * 16 + CCVal of the diagram; byte 9 is
the Data Offset. -/
theorem C9_layout_at_scenario :
    Eligible defaultConfig scenarioSkb ∧
    dccph_type scenarioSkb.data (thoff scenarioSkb.data) = 0 ∧
    dccph_ccval scenarioSkb.data (thoff scenarioSkb.data) = 2 ∧
    tbyte (dccp_hook defaultConfig g0 scenarioSkb).skb.data 8 = 32 ∧
    dccph_type scenarioSkb.data (thoff scenarioSkb.data) * 16
      + dccph_ccval scenarioSkb.data (thoff scenarioSkb.data) = 2 ∧
    tbyte (dccp_hook defaultConfig g0 scenarioSkb).skb.data 9 = 3 := by
  decide

/-- C10: IP header after forward. For every eligible packet, after `dccp_hook` the protocol byte
is 17, every IP header byte other than the protocol byte and the two header-checksum bytes is
unchanged, and the header checksum is valid: `ip_fast_csum` over the header is 0, that is, the
ones-complement sum of the `4*ihl` header bytes folds to 0xFFFF. -/
theorem C10_ip_header_after_forward (cfg : Config) (g : Globals) (p : SkBuff)
    (he : Eligible cfg p) :
    iph_protocol (dccp_hook cfg g p).skb.data 0 = IPPROTO_UDP ∧
    (∀ j, j < 4 * iph_ihl p.data 0 → j ≠ 9 → j ≠ 10 → j ≠ 11 →
      rd (dccp_hook cfg g p).skb.data j = rd p.data j) ∧
    ip_fast_csum (dccp_hook cfg g p).skb.data 0 (iph_ihl (dccp_hook cfg g p).skb.data 0) = 0 ∧
    ocfold (wordSum ((dccp_hook cfg g p).skb.data.take
      (4 * iph_ihl (dccp_hook cfg g p).skb.data 0))) = 65535 := by
  have hwf := he.1
  have h20 := hwf.h20
  obtain ⟨_, _, _, hlen, _, hb⟩ := hwf
  rw [dccp_hook_data cfg g p he]
  have ht : thoff (fwd p.data) = thoff p.data := thoff_fwd _ h20
  have hs := hdr_sum_fwd p.data hb h20 hlen
  have hm : iph_ihl (fwd p.data) 0 * 4 = thoff p.data := by
    rw [← ht]; unfold thoff; omega
  have hm' : 4 * iph_ihl (fwd p.data) 0 = thoff p.data := by omega
  refine ⟨rd_fwd_proto _ h20 (by omega), ?_, ?_, ?_⟩
  · intro j hj h9 h10 h11
    exact rd_fwd_frame _ _ h20 (by omega) (by unfold thoff; omega)
  · rw [ip_fast_csum_eq _ _ (bytes_fwd _ hb), hm, hs]
  · rw [hm', hs]

theorem C10_ip_header_after_forward_witness :
    Eligible defaultConfig scenarioSkb ∧
    iph_protocol (dccp_hook defaultConfig g0 scenarioSkb).skb.data 0 = IPPROTO_UDP :=
  ⟨by decide, (C10_ip_header_after_forward defaultConfig g0 scenarioSkb (by decide)).1⟩

/-! ## Checksum after the reverse rewrite; repeated forward invocation -/

theorem wr16_wr16 (d : List Nat) (i a b : Nat) : wr16 (wr16 d i a) i b = wr16 d i b := by
  apply ext_rd
  · simp only [length_wr16]
  · intro j hj
    simp only [length_wr16] at hj
    by_cases h1 : j = i
    · subst h1
      by_cases h2 : j < d.length
      · rw [rd_wr16_hi _ _ _ (by simpa only [length_wr16] using h2), rd_wr16_hi _ _ _ h2]
      · omega
    · by_cases h2 : j = i + 1
      · subst h2
        rw [rd_wr16_lo _ _ _ (by simpa only [length_wr16] using hj), rd_wr16_lo _ _ _ hj]
      · rw [rd_wr16_ne _ _ _ _ (by omega) (by omega), rd_wr16_ne _ _ _ _ (by omega) (by omega),
          rd_wr16_ne _ _ _ _ (by omega) (by omega)]

theorem csum_fold_le (x : Nat) : csum_fold x ≤ 65535 := by
  unfold csum_fold
  simp only
  omega

theorem pseudo_csum_le (d : List Nat) (proto : Nat) : pseudo_csum d proto ≤ 65535 := by
  unfold pseudo_csum csum_tcpudp_magic
  exact csum_fold_le _

theorem rd16_wr16 (d : List Nat) (i v : Nat) (h : i + 1 < d.length) (hv : v ≤ 65535) :
    rd16 (wr16 d i v) i = v := by
  unfold rd16
  rw [rd_wr16_hi _ _ _ (by omega), rd_wr16_lo _ _ _ h]
  omega

/-- The reverse image is its zeroed-checksum buffer with the DCCP pseudo-header checksum of
that buffer stored in the checksum field. -/
theorem rev_sealed (d : List Nat) (h20 : 20 ≤ thoff d) :
    rev d = wr16 (wr16 (rev_fields d 0 (thoff d)) (thoff d + 6) 0) (thoff d + 6)
      (pseudo_csum (wr16 (rev_fields d 0 (thoff d)) (thoff d + 6) 0) IPPROTO_DCCP) := by
  have h := seal_csum_eq (rev_fields d 0 (thoff d)) IPPROTO_DCCP
    (by rw [thoff_rev_fields d h20]; exact h20)
  rw [thoff_rev_fields d h20, length_rev_fields] at h
  rw [rev_eq, h]

theorem pseudo_csum_expand (d : List Nat) (proto : Nat) (ht : thoff d ≤ d.length)
    (hl : d.length < 4294967296) :
    pseudo_csum d proto = csum_tcpudp_magic (iph_saddr d 0) (iph_daddr d 0)
      (d.length - 4 * iph_ihl d 0) proto
      (skb_checksum d (4 * iph_ihl d 0) (d.length - 4 * iph_ihl d 0) 0) := by
  unfold pseudo_csum
  rw [u32sub_len _ _ ht hl]
  rfl

/-- C11: checksum validity after reverse. For every well-formed packet that `udp_hook` converts
(protocol UDP, a port in range, not dropped), the checksum field of the result equals the
pseudo-header checksum for protocol DCCP (33) over the addresses, the transport length and the
restored segment with the checksum field zeroed, and recomputing that checksum over the result
with the stored field included gives zero. -/
theorem C11_reverse_checksum_valid (cfg : Config) (g : Globals) (u : SkBuff)
    (hwf : WellFormed u) (hp : iph_protocol u.data 0 = IPPROTO_UDP)
    (hg : PortGate cfg u.data) (hv : (udp_hook cfg g u).verdict = NF_ACCEPT) :
    dccph_checksum (udp_hook cfg g u).skb.data (thoff (udp_hook cfg g u).skb.data)
      = pseudo_csum
          (wr16 (udp_hook cfg g u).skb.data (thoff (udp_hook cfg g u).skb.data + 6) 0)
          IPPROTO_DCCP ∧
    csum_tcpudp_magic (iph_saddr (udp_hook cfg g u).skb.data 0)
      (iph_daddr (udp_hook cfg g u).skb.data 0)
      ((udp_hook cfg g u).skb.data.length - 4 * iph_ihl (udp_hook cfg g u).skb.data 0)
      IPPROTO_DCCP
      (skb_checksum (udp_hook cfg g u).skb.data (4 * iph_ihl (udp_hook cfg g u).skb.data 0)
        ((udp_hook cfg g u).skb.data.length - 4 * iph_ihl (udp_hook cfg g u).skb.data 0) 0)
      = 0 := by
  have h20 := hwf.h20
  have hd := udp_hook_converted cfg g u hwf hp hg hv
  obtain ⟨_, _, _, hlen, h32, hb⟩ := hwf
  rw [hd]
  have ht := thoff_rev u.data h20
  constructor
  · rw [ht, rev_sealed u.data h20, wr16_wr16, wr16_wr16]
    unfold dccph_checksum
    exact rd16_wr16 _ _ _ (by rw [length_rev_fields]; omega) (pseudo_csum_le _ _)
  · rw [← pseudo_csum_expand _ _ (by rw [ht, length_rev]; omega) (by rw [length_rev]; exact h32)]
    exact pseudo_csum_rev u.data hb h20 hlen h32

theorem C11_reverse_checksum_valid_witness :
    WellFormed (dccp_hook defaultConfig g0 scenarioSkb).skb ∧
    dccph_checksum (round_trip defaultConfig g0 g0 scenarioSkb).skb.data 20
      = pseudo_csum (wr16 (round_trip defaultConfig g0 g0 scenarioSkb).skb.data 26 0)
          IPPROTO_DCCP :=
  ⟨by decide,
   (C11_reverse_checksum_valid defaultConfig g0 (dccp_hook defaultConfig g0 scenarioSkb).skb
     (by decide) (by decide) (by decide) (by decide)).1⟩

theorem dccp_hook_other_protocol (cfg : Config) (g : Globals) (skb : SkBuff) (iph : Nat)
    (hn : skb_network_header skb = some iph)
    (hp : iph_protocol skb.data iph ≠ IPPROTO_DCCP) :
    dccp_hook cfg g skb = ⟨NF_ACCEPT, skb, g⟩ := by
  unfold dccp_hook
  rw [hn]
  simp [hp]

/-- C12 (amended): repeated forward invocation. For every eligible packet the output of
`dccp_hook` has IP protocol 17, so a second invocation of `dccp_hook` fails the protocol test
and returns ACCEPT with buffer and scratch state unchanged: the second call changes nothing. -/
theorem C12_second_forward_is_identity (cfg : Config) (g1 g2 : Globals) (p : SkBuff)
    (he : Eligible cfg p) :
    iph_protocol (dccp_hook cfg g1 p).skb.data 0 = IPPROTO_UDP ∧
    dccp_hook cfg g2 (dccp_hook cfg g1 p).skb = ⟨NF_ACCEPT, (dccp_hook cfg g1 p).skb, g2⟩ := by
  have hwf := he.1
  have h20 := hwf.h20
  obtain ⟨hnet, _, _, hlen, _, _⟩ := hwf
  rw [dccp_hook_eligible cfg g1 p he]
  have hpr : iph_protocol (fwd p.data) 0 = IPPROTO_UDP := rd_fwd_proto p.data h20 (by omega)
  refine ⟨hpr, ?_⟩
  have hne : iph_protocol (fwd p.data) 0 ≠ IPPROTO_DCCP := by
    rw [hpr]
    decide
  exact dccp_hook_other_protocol cfg g2 { p with data := fwd p.data } 0 hnet hne

theorem C12_second_forward_is_identity_witness :
    Eligible defaultConfig scenarioSkb ∧
    iph_protocol (dccp_hook defaultConfig g0 scenarioSkb).skb.data 0 = IPPROTO_UDP :=
  ⟨by decide, (C12_second_forward_is_identity defaultConfig g0 g0 scenarioSkb (by decide)).1⟩

/-- C12 as stated fails: at the scenario packet a second invocation of `dccp_hook` returns the
output of the first invocation unchanged, so the two do not differ. -/
theorem C12_counterexample :
    Eligible defaultConfig scenarioSkb ∧
    (dccp_hook defaultConfig g0 (dccp_hook defaultConfig g0 scenarioSkb).skb).skb
      = (dccp_hook defaultConfig g0 scenarioSkb).skb ∧
    (dccp_hook defaultConfig g0 (dccp_hook defaultConfig g0 scenarioSkb).skb).verdict
      = NF_ACCEPT := by
  decide

/-! ## Frame of the forward rewrite; the port gate -/

theorem length_dccp_to_udp (d : List Nat) (iph dh len : Nat) :
    (dccp_to_udp d iph dh len).1.length = d.length := by
  rw [dccp_to_udp_eq, length_seal_csum, length_fwd_fields]

theorem rd_dccp_to_udp_frame (d : List Nat) (iph dh len j : Nat)
    (h1 : j < dh + 4 ∨ dh + 9 < j) (h2 : j < iph + 9 ∨ iph + 11 < j) :
    rd (dccp_to_udp d iph dh len).1 j = rd d j := by
  simp only [dccp_to_udp]
  simp (disch := omega) only [rd_wr_ne, rd_wr16_ne]

/-- The two outcomes of `dccp_hook`: the buffer is untouched, or its bytes are rewritten by
`dccp_to_udp` at the header offsets found. -/
theorem dccp_hook_cases (cfg : Config) (g : Globals) (skb : SkBuff) :
    (dccp_hook cfg g skb).skb = skb ∨
    ∃ iph dh, skb_network_header skb = some iph ∧ dccp_hdr skb = some dh ∧
      (dccp_hook cfg g skb).skb.data = (dccp_to_udp skb.data iph dh (skb_len skb)).1 := by
  unfold dccp_hook
  cases hn : skb_network_header skb with
  | none => exact Or.inl rfl
  | some iph =>
    simp only
    by_cases hp : iph_protocol skb.data iph = IPPROTO_DCCP
    · cases ht : dccp_hdr skb with
      | none => simp [hp]
      | some dh =>
        simp only [hp, if_true]
        by_cases hx : dccph_x skb.data dh = 0
        · simp [hx]
        · by_cases hg : ports_out_of_range cfg skb.data dh = true
          · simp [hx, hg]
          · right
            exact ⟨iph, dh, rfl, rfl, by simp [hx, hg]⟩
    · simp [hp]

theorem rd32_eq_of_rd (d e : List Nat) (i : Nat)
    (h : ∀ k, k < 4 → rd e (i + k) = rd d (i + k)) : rd32 e i = rd32 d i := by
  unfold rd32
  have h0 := h 0 (by omega)
  rw [Nat.add_zero] at h0
  rw [h0, h 1 (by omega), h 2 (by omega), h 3 (by omega)]

/-- C13: forward frame. For every buffer `dccp_hook` leaves the length unchanged and changes no
byte outside transport bytes 4..9 and the IP protocol and header-checksum bytes; for a
well-formed packet the source port, destination port, transport bytes 10 onward (sequence
number and payload) and the IP source and destination addresses are therefore identical
before and after. -/
theorem C13_forward_frame (cfg : Config) (g : Globals) (skb : SkBuff) :
    (dccp_hook cfg g skb).skb.data.length = skb.data.length ∧
    (∀ iph dh, skb_network_header skb = some iph → dccp_hdr skb = some dh →
      ∀ j, (j < dh + 4 ∨ dh + 9 < j) → (j < iph + 9 ∨ iph + 11 < j) →
        rd (dccp_hook cfg g skb).skb.data j = rd skb.data j) ∧
    (WellFormed skb →
      thoff (dccp_hook cfg g skb).skb.data = thoff skb.data ∧
      (∀ k, (k < 4 ∨ 10 ≤ k) →
        tbyte (dccp_hook cfg g skb).skb.data k = tbyte skb.data k) ∧
      iph_saddr (dccp_hook cfg g skb).skb.data 0 = iph_saddr skb.data 0 ∧
      iph_daddr (dccp_hook cfg g skb).skb.data 0 = iph_daddr skb.data 0) := by
  have hframe : ∀ iph dh, skb_network_header skb = some iph → dccp_hdr skb = some dh →
      ∀ j, (j < dh + 4 ∨ dh + 9 < j) → (j < iph + 9 ∨ iph + 11 < j) →
        rd (dccp_hook cfg g skb).skb.data j = rd skb.data j := by
    intro iph dh hn ht j h1 h2
    rcases dccp_hook_cases cfg g skb with h | ⟨iph', dh', hn', ht', hd⟩
    · rw [h]
    · rw [hn] at hn'
      rw [ht] at ht'
      cases hn'
      cases ht'
      rw [hd]
      exact rd_dccp_to_udp_frame _ _ _ _ _ h1 h2
  refine ⟨?_, hframe, ?_⟩
  · rcases dccp_hook_cases cfg g skb with h | ⟨iph, dh, _, _, hd⟩
    · rw [h]
    · rw [hd]
      exact length_dccp_to_udp _ _ _ _
  · intro hwf
    have h20 := hwf.h20
    obtain ⟨hnet, htr, _, _, _, _⟩ := hwf
    have hf := hframe 0 (thoff skb.data) hnet htr
    have ht : thoff (dccp_hook cfg g skb).skb.data = thoff skb.data := by
      show 4 * (rd (dccp_hook cfg g skb).skb.data 0 % 16) = thoff skb.data
      rw [hf 0 (by omega) (by omega)]
      rfl
    refine ⟨ht, ?_, ?_, ?_⟩
    · intro k hk
      unfold tbyte
      rw [ht]
      exact hf _ (by omega) (by omega)
    · exact rd32_eq_of_rd _ _ _ (fun k hk => hf _ (by omega) (by omega))
    · exact rd32_eq_of_rd _ _ _ (fun k hk => hf _ (by omega) (by omega))

theorem C13_forward_frame_witness :
    WellFormed scenarioSkb ∧
    iph_saddr (dccp_hook defaultConfig g0 scenarioSkb).skb.data 0 = 0x0A000001 ∧
    tbyte (dccp_hook defaultConfig g0 scenarioSkb).skb.data 15 = 42 :=
  ⟨by decide,
   ((C13_forward_frame defaultConfig g0 scenarioSkb).2.2 (by decide)).2.2.1,
   ((C13_forward_frame defaultConfig g0 scenarioSkb).2.2 (by decide)).2.1 15 (Or.inr (by decide))⟩

theorem ports_out_of_range_eq_false_iff (cfg : Config) (d : List Nat) (dh : Nat) :
    ports_out_of_range cfg d dh = false ↔
      (PORT_IN_RANGE cfg (dccph_sport d dh) = true ∨
        PORT_IN_RANGE cfg (dccph_dport d dh) = true) := by
  unfold ports_out_of_range
  cases PORT_IN_RANGE cfg (dccph_sport d dh) <;>
    cases PORT_IN_RANGE cfg (dccph_dport d dh) <;> simp

theorem dccp_hook_ports_out (cfg : Config) (g : Globals) (skb : SkBuff)
    (h : ∀ dh, dccp_hdr skb = some dh → ports_out_of_range cfg skb.data dh = true) :
    dccp_hook cfg g skb = ⟨NF_ACCEPT, skb, g⟩ := by
  unfold dccp_hook
  cases hn : skb_network_header skb with
  | none => rfl
  | some iph =>
    simp only
    by_cases hp : iph_protocol skb.data iph = IPPROTO_DCCP
    · cases ht : dccp_hdr skb with
      | none => simp [hp]
      | some dh => simp [hp, h dh ht]
    · simp [hp]

theorem udp_hook_ports_out (cfg : Config) (g : Globals) (skb : SkBuff)
    (h : ∀ dh, dccp_hdr skb = some dh → ports_out_of_range cfg skb.data dh = true) :
    udp_hook cfg g skb = ⟨NF_ACCEPT, skb, g⟩ := by
  unfold udp_hook
  cases hn : skb_network_header skb with
  | none => rfl
  | some iph =>
    simp only
    by_cases hp : iph_protocol skb.data iph = IPPROTO_UDP
    · cases ht : dccp_hdr skb with
      | none => simp [hp]
      | some dh => simp [hp, h dh ht]
    · simp [hp]

/-- C14: port-range gate. `PORT_IN_RANGE(port)` holds exactly when
`srv_port <= port < srv_port + port_num` in unbounded integers: the sum does not wrap at 2^16, so
a range reaching past 65535 matches every 16-bit port from `srv_port` up and no port below it,
and `port_num = 0` matches no port.  The gate of a hook passes exactly when the test holds for
the source port or for the destination port; when it does not, both hooks return the buffer
untouched. -/
theorem C14_port_range_gate (cfg : Config) (port : Nat) :
    (PORT_IN_RANGE cfg port = true ↔
      cfg.srv_port ≤ port ∧ port < cfg.srv_port + cfg.port_num) ∧
    (cfg.port_num = 0 → PORT_IN_RANGE cfg port = false) ∧
    (port < cfg.srv_port → PORT_IN_RANGE cfg port = false) ∧
    (65535 < cfg.srv_port + cfg.port_num → port ≤ 65535 →
      (PORT_IN_RANGE cfg port = true ↔ cfg.srv_port ≤ port)) ∧
    (∀ d dh, ports_out_of_range cfg d dh = false ↔
      (PORT_IN_RANGE cfg (dccph_sport d dh) = true ∨
        PORT_IN_RANGE cfg (dccph_dport d dh) = true)) ∧
    (∀ g skb, (∀ dh, dccp_hdr skb = some dh → ports_out_of_range cfg skb.data dh = true) →
      dccp_hook cfg g skb = ⟨NF_ACCEPT, skb, g⟩ ∧ udp_hook cfg g skb = ⟨NF_ACCEPT, skb, g⟩) := by
  have hiff : PORT_IN_RANGE cfg port = true ↔
      cfg.srv_port ≤ port ∧ port < cfg.srv_port + cfg.port_num := by
    unfold PORT_IN_RANGE
    simp
  refine ⟨hiff, ?_, ?_, ?_, ports_out_of_range_eq_false_iff cfg, ?_⟩
  · intro h0
    cases hb : PORT_IN_RANGE cfg port with
    | false => rfl
    | true =>
      have := hiff.1 hb
      omega
  · intro hlt
    cases hb : PORT_IN_RANGE cfg port with
    | false => rfl
    | true =>
      have := hiff.1 hb
      omega
  · intro hbig hport
    rw [hiff]
    constructor
    · intro h
      exact h.1
    · intro h
      exact ⟨h, by omega⟩
  · intro g skb h
    exact ⟨dccp_hook_ports_out cfg g skb h, udp_hook_ports_out cfg g skb h⟩

theorem C14_port_range_gate_witness :
    PORT_IN_RANGE ⟨65000, 1000⟩ 65535 = true ∧ PORT_IN_RANGE ⟨65000, 1000⟩ 463 = false ∧
    PORT_IN_RANGE ⟨1337, 0⟩ 1337 = false :=
  ⟨((C14_port_range_gate ⟨65000, 1000⟩ 65535).2.2.2.1 (by decide) (by decide)).2 (by decide),
   (C14_port_range_gate ⟨65000, 1000⟩ 463).2.2.1 (by decide),
   (C14_port_range_gate ⟨1337, 0⟩ 1337).2.1 rfl⟩

/-! ## Canonical round trip; the IP header after the reverse rewrite -/

theorem rd_drop (d : List Nat) (t i : Nat) : rd (d.drop t) i = rd d (t + i) := by
  unfold rd
  simp only [List.getD_eq_getElem?_getD, List.getElem?_drop]

theorem rd_take (d : List Nat) (t i : Nat) (h : i < t) : rd (d.take t) i = rd d i := by
  unfold rd
  simp only [List.getD_eq_getElem?_getD, List.getElem?_take, if_pos h]

theorem drop_eq_of_rd (a b : List Nat) (t : Nat) (hl : a.length = b.length)
    (h : ∀ j, t ≤ j → j < a.length → rd a j = rd b j) : a.drop t = b.drop t := by
  apply ext_rd
  · simp only [List.length_drop, hl]
  · intro i hi
    simp only [List.length_drop] at hi
    rw [rd_drop, rd_drop]
    exact h _ (by omega) (by omega)

theorem take_eq_of_rd (a b : List Nat) (t : Nat) (hl : a.length = b.length)
    (h : ∀ j, j < t → j < a.length → rd a j = rd b j) : a.take t = b.take t := by
  apply ext_rd
  · simp only [List.length_take, hl]
  · intro i hi
    simp only [List.length_take] at hi
    rw [rd_take _ _ _ (by omega), rd_take _ _ _ (by omega)]
    exact h _ (by omega) (by omega)

/-- The pseudo-header checksum depends only on the header length, the packet length, the two
addresses and the transport segment. -/
theorem pseudo_csum_congr (a b : List Nat) (proto : Nat) (hi : iph_ihl a 0 = iph_ihl b 0)
    (hl : a.length = b.length) (hs : iph_saddr a 0 = iph_saddr b 0)
    (hd : iph_daddr a 0 = iph_daddr b 0) (hseg : a.drop (thoff a) = b.drop (thoff b)) :
    pseudo_csum a proto = pseudo_csum b proto := by
  unfold pseudo_csum skb_checksum
  rw [hi, hl, hs, hd, hseg]

theorem iph_ihl_of_thoff (a b : List Nat) (h : thoff a = thoff b) :
    iph_ihl a 0 = iph_ihl b 0 := by
  unfold thoff at h
  omega

/-- Bytes of `rev (fwd d)` in the transport segment, outside the checksum field, for a packet
with CsCov 0, Reserved 0, X 1 and transport byte 9 zero: those of `d`. -/
theorem rd_rev_fwd_canonical (d : List Nat) (hb : ∀ b ∈ d, b < 256) (h20 : 20 ≤ thoff d)
    (hn : thoff d + 16 ≤ d.length) (hcov : dccph_cscov d (thoff d) = 0)
    (hres : dccph_reserved d (thoff d) = 0) (hx : dccph_x d (thoff d) = 1)
    (h9 : rd d (thoff d + 9) = 0) (j : Nat) (hj : thoff d ≤ j)
    (h6 : j ≠ thoff d + 6) (h7 : j ≠ thoff d + 7) :
    rd (rev (fwd d)) j = rd d j := by
  have htq : thoff (fwd d) = thoff d := thoff_fwd d h20
  have h20q : 20 ≤ thoff (fwd d) := by omega
  have hlenq : thoff (fwd d) + 16 ≤ (fwd d).length := by rw [htq, length_fwd]; exact hn
  have r4 := rd_rev_4 _ h20q (by omega)
  have r5 := rd_rev_5 _ h20q (by omega)
  have r8 := rd_rev_8 _ h20q (by omega)
  have r9 := rd_rev_9 _ h20q (by omega)
  have f8 := rd_fwd_8 _ h20 (by omega)
  have f9 := rd_fwd_9 _ h20 (by omega)
  rw [htq] at r4 r5 r8 r9
  rw [f9] at r4
  rw [f8] at r5 r8
  have b5 := rd_lt_of_bytes d hb (thoff d + 5)
  have b8 := rd_lt_of_bytes d hb (thoff d + 8)
  unfold dccph_cscov at hcov
  unfold dccph_reserved at hres
  unfold dccph_x at hx
  unfold mk_ccval_type dccph_type dccph_ccval at r5 r8
  unfold dccph_doff at r4
  by_cases c4 : j = thoff d + 4
  · rw [c4, r4]
  · by_cases c5 : j = thoff d + 5
    · rw [c5, r5]
      omega
    · by_cases c8 : j = thoff d + 8
      · rw [c8, r8]
        omega
      · by_cases c9 : j = thoff d + 9
        · rw [c9, r9, h9]
        · rw [rd_rev_frame _ j h20q (by omega) (by omega),
            rd_fwd_frame _ j h20 (by omega) (by omega)]

theorem rd_rev_fwd_ip (d : List Nat) (h20 : 20 ≤ thoff d) (j : Nat) (h12 : 12 ≤ j)
    (hj : j < thoff d) : rd (rev (fwd d)) j = rd d j := by
  have htq : thoff (fwd d) = thoff d := thoff_fwd d h20
  rw [rd_rev_frame _ j (by omega) (by omega) (by omega),
    rd_fwd_frame _ j h20 (by omega) (by omega)]

/-- The canonical round trip restores the whole transport segment. -/
theorem rev_fwd_canonical (d : List Nat) (hb : ∀ b ∈ d, b < 256) (h20 : 20 ≤ thoff d)
    (hn : thoff d + 16 ≤ d.length) (hcov : dccph_cscov d (thoff d) = 0)
    (hres : dccph_reserved d (thoff d) = 0) (hx : dccph_x d (thoff d) = 1)
    (h9 : rd d (thoff d + 9) = 0)
    (hc : dccph_checksum d (thoff d) = pseudo_csum (wr16 d (thoff d + 6) 0) IPPROTO_DCCP) :
    (rev (fwd d)).drop (thoff d) = d.drop (thoff d) := by
  have htq : thoff (fwd d) = thoff d := thoff_fwd d h20
  have h20q : 20 ≤ thoff (fwd d) := by omega
  have hlq : (fwd d).length = d.length := length_fwd d
  have hbody := rd_rev_fwd_canonical d hb h20 hn hcov hres hx h9
  have hseal := rev_sealed (fwd d) h20q
  rw [htq] at hseal
  generalize hz : wr16 (rev_fields (fwd d) 0 (thoff d)) (thoff d + 6) 0 = z at hseal
  have hlz : z.length = d.length := by rw [← hz, length_wr16, length_rev_fields, hlq]
  have hzr : ∀ j, j ≠ thoff d + 6 → j ≠ thoff d + 7 → rd z j = rd (rev (fwd d)) j := by
    intro j h6 h7
    rw [hseal, rd_wr16_ne _ _ _ _ (by omega) (by omega)]
  have hz6 : rd z (thoff d + 6) = 0 := by
    rw [← hz, rd_wr16_hi _ _ _ (by rw [length_rev_fields, hlq]; omega)]
  have hz7 : rd z (thoff d + 6 + 1) = 0 := by
    rw [← hz, rd_wr16_lo _ _ _ (by rw [length_rev_fields, hlq]; omega)]
  have htz : thoff z = thoff d := by
    show 4 * (rd z 0 % 16) = thoff d
    rw [hzr 0 (by omega) (by omega)]
    exact (thoff_rev (fwd d) h20q).trans htq
  have hcz : pseudo_csum z IPPROTO_DCCP = pseudo_csum (wr16 d (thoff d + 6) 0) IPPROTO_DCCP := by
    have ht0 : thoff (wr16 d (thoff d + 6) 0) = thoff d := thoff_wr16 _ _ _ (by omega)
    apply pseudo_csum_congr
    · exact iph_ihl_of_thoff _ _ (by rw [htz, ht0])
    · rw [hlz, length_wr16]
    · apply rd32_eq_of_rd
      intro k hk
      rw [hzr _ (by omega) (by omega), rd_rev_fwd_ip d h20 _ (by omega) (by omega),
        rd_wr16_ne _ _ _ _ (by omega) (by omega)]
    · apply rd32_eq_of_rd
      intro k hk
      rw [hzr _ (by omega) (by omega), rd_rev_fwd_ip d h20 _ (by omega) (by omega),
        rd_wr16_ne _ _ _ _ (by omega) (by omega)]
    · rw [htz, ht0]
      apply drop_eq_of_rd _ _ _ (by rw [hlz, length_wr16])
      intro j hj hjl
      by_cases c6 : j = thoff d + 6
      · rw [c6, hz6, rd_wr16_hi _ _ _ (by omega)]
      · by_cases c7 : j = thoff d + 6 + 1
        · rw [c7, hz7, rd_wr16_lo _ _ _ (by omega)]
        · rw [hzr _ c6 (by omega), hbody j hj c6 (by omega),
            rd_wr16_ne _ _ _ _ (by omega) (by omega)]
  apply drop_eq_of_rd _ _ _ (by rw [length_rev, hlq])
  intro j hj hjl
  have hle := pseudo_csum_le z IPPROTO_DCCP
  have b6 := rd_lt_of_bytes d hb (thoff d + 6)
  have b7 := rd_lt_of_bytes d hb (thoff d + 6 + 1)
  unfold dccph_checksum rd16 at hc
  rw [← hcz] at hc
  by_cases c6 : j = thoff d + 6
  · rw [c6, hseal, rd_wr16_hi _ _ _ (by omega)]
    omega
  · by_cases c7 : j = thoff d + 6 + 1
    · rw [c7, hseal, rd_wr16_lo _ _ _ (by omega)]
      omega
    · exact hbody j hj c6 (by omega)

theorem round_trip_converted (cfg : Config) (g1 g2 : Globals) (p : SkBuff)
    (he : Eligible cfg p) (hlin : skb_is_nonlinear p = false ∨ p.linearize_fails = false) :
    (round_trip cfg g1 g2 p).verdict = NF_ACCEPT ∧
    (round_trip cfg g1 g2 p).skb.data = rev (fwd p.data) := by
  have hwf := he.1
  have h20 := hwf.h20
  obtain ⟨_, _, _, hlen, h32, hb⟩ := hwf
  have hacc := udp_hook_accept cfg g2 { p with data := fwd p.data } (wellFormed_fwd p he.1)
    (rd_fwd_proto p.data h20 (by omega)) (portGate_fwd cfg _ h20 he.2.2.2) hlin
    (Or.inr (pseudo_csum_fwd p.data hb h20 hlen h32))
  unfold round_trip
  rw [dccp_hook_eligible cfg g1 p he]
  exact hacc

/-- C15 (amended): canonical round trip. For every eligible packet whose CsCov, Reserved bits
and transport byte 9 are zero and whose checksum field holds the full-coverage DCCP
pseudo-header checksum, and whose buffer is linear or can be linearized, `udp_hook` applied to
the output of `dccp_hook` returns ACCEPT and leaves the length, the header length and the whole
transport segment (header and payload) identical to those of the original packet. -/
theorem C15_canonical_round_trip (cfg : Config) (g1 g2 : Globals) (p : SkBuff)
    (he : Eligible cfg p) (hcov : dccph_cscov p.data (thoff p.data) = 0)
    (hres : dccph_reserved p.data (thoff p.data) = 0) (h9 : tbyte p.data 9 = 0)
    (hc : dccph_checksum p.data (thoff p.data)
      = pseudo_csum (wr16 p.data (thoff p.data + 6) 0) IPPROTO_DCCP)
    (hlin : skb_is_nonlinear p = false ∨ p.linearize_fails = false) :
    (round_trip cfg g1 g2 p).verdict = NF_ACCEPT ∧
    (round_trip cfg g1 g2 p).skb.data.length = p.data.length ∧
    thoff (round_trip cfg g1 g2 p).skb.data = thoff p.data ∧
    (round_trip cfg g1 g2 p).skb.data.drop (thoff p.data) = p.data.drop (thoff p.data) := by
  have hwf := he.1
  have h20 := hwf.h20
  obtain ⟨_, _, _, hlen, _, hb⟩ := hwf
  obtain ⟨hv, hd⟩ := round_trip_converted cfg g1 g2 p he hlin
  have htq : thoff (fwd p.data) = thoff p.data := thoff_fwd _ h20
  rw [hd]
  refine ⟨hv, ?_, ?_, ?_⟩
  · rw [length_rev, length_fwd]
  · rw [thoff_rev _ (by omega), htq]
  · exact rev_fwd_canonical p.data hb h20 hlen hcov hres he.2.2.1 h9 hc

theorem C15_canonical_round_trip_witness :
    Eligible defaultConfig canonicalSkb ∧
    (round_trip defaultConfig g0 g0 canonicalSkb).skb.data.drop (thoff canonicalSkb.data)
      = canonicalSkb.data.drop (thoff canonicalSkb.data) :=
  ⟨by decide,
   (C15_canonical_round_trip defaultConfig g0 g0 canonicalSkb (by decide) (by decide)
     (by decide) (by decide) (by decide) (Or.inl (by decide))).2.2.2⟩

/-- C15 as stated fails: for the canonical packet in a non-linear buffer whose linearization
fails, `udp_hook` drops the converted packet at line 250 and its transport header is still
the UDP-shaped one (bytes 4..5 hold the length 32, not Data Offset 3 and CCVal 2). -/
theorem C15_counterexample :
    Eligible defaultConfig unlinearizableSkb ∧
    dccph_cscov unlinearizableSkb.data (thoff unlinearizableSkb.data) = 0 ∧
    dccph_reserved unlinearizableSkb.data (thoff unlinearizableSkb.data) = 0 ∧
    tbyte unlinearizableSkb.data 9 = 0 ∧
    dccph_checksum unlinearizableSkb.data (thoff unlinearizableSkb.data)
      = pseudo_csum (wr16 unlinearizableSkb.data (thoff unlinearizableSkb.data + 6) 0)
          IPPROTO_DCCP ∧
    (round_trip defaultConfig g0 g0 unlinearizableSkb).verdict = NF_DROP ∧
    tbyte (round_trip defaultConfig g0 g0 unlinearizableSkb).skb.data 4 = 0 ∧
    tbyte unlinearizableSkb.data 4 = 3 ∧
    (round_trip defaultConfig g0 g0 unlinearizableSkb).skb.data.drop 20
      ≠ unlinearizableSkb.data.drop 20 := by
  decide

/-- The IP header sum after the reverse rewrite: the input sum plus 16 (protocol 17 to 33). -/
theorem hdr_sum_rev (d : List Nat) (h20 : 20 ≤ thoff d) (hn : thoff d + 16 ≤ d.length)
    (hp : rd d 9 = IPPROTO_UDP) :
    wordSum ((rev d).take (thoff d)) = wordSum (d.take (thoff d)) + 16 := by
  have e : (rev d).take (thoff d) = (wr d 9 IPPROTO_DCCP).take (thoff d) := by
    apply take_eq_of_rd _ _ _ (by rw [length_rev, length_wr])
    intro j hj _
    by_cases c9 : j = 9
    · rw [c9, rd_rev_proto d h20 (by omega), rd_wr_same _ _ _ (by omega)]
    · rw [rd_rev_frame d j h20 c9 (by omega), rd_wr_ne _ _ _ _ (by omega)]
  have hs := wordSum_take_wr d (thoff d) 9 IPPROTO_DCCP (by omega) (by omega)
  have w9 : wt 9 = 1 := rfl
  rw [w9, hp] at hs
  rw [e]
  unfold IPPROTO_UDP IPPROTO_DCCP at hs
  unfold IPPROTO_DCCP
  omega

/-- C16: the reverse rewrite leaves the IP header checksum stale. For every well-formed packet
that `udp_hook` converts, the only IP header byte that changes is the protocol byte (17 to 33),
the header-checksum field keeps its value, and a header checksum that was valid on entry
(`ip_fast_csum` over the header is 0, the header sum folds to 0xFFFF) is not valid on exit. -/
theorem C16_reverse_ip_checksum_stale (cfg : Config) (g : Globals) (u : SkBuff)
    (hwf : WellFormed u) (hp : iph_protocol u.data 0 = IPPROTO_UDP)
    (hg : PortGate cfg u.data) (hv : (udp_hook cfg g u).verdict = NF_ACCEPT) :
    (∀ j, j < 4 * iph_ihl u.data 0 → j ≠ 9 → rd (udp_hook cfg g u).skb.data j = rd u.data j) ∧
    iph_protocol (udp_hook cfg g u).skb.data 0 = IPPROTO_DCCP ∧
    iph_check (udp_hook cfg g u).skb.data 0 = iph_check u.data 0 ∧
    iph_ihl (udp_hook cfg g u).skb.data 0 = iph_ihl u.data 0 ∧
    (ip_fast_csum u.data 0 (iph_ihl u.data 0) = 0 →
      ip_fast_csum (udp_hook cfg g u).skb.data 0 (iph_ihl (udp_hook cfg g u).skb.data 0) ≠ 0) ∧
    (ocfold (wordSum (u.data.take (4 * iph_ihl u.data 0))) = 65535 →
      ocfold (wordSum ((udp_hook cfg g u).skb.data.take (4 * iph_ihl u.data 0))) ≠ 65535) := by
  have h20 := hwf.h20
  have hd := udp_hook_converted cfg g u hwf hp hg hv
  obtain ⟨_, _, _, hlen, _, hb⟩ := hwf
  rw [hd]
  have ht := thoff_rev u.data h20
  have hihl : iph_ihl (rev u.data) 0 = iph_ihl u.data 0 := iph_ihl_of_thoff _ _ ht
  have hsum := hdr_sum_rev u.data h20 hlen hp
  have hstale : ocfold (wordSum (u.data.take (thoff u.data))) = 65535 →
      ocfold (wordSum ((rev u.data).take (thoff u.data))) ≠ 65535 := by
    intro h1 h2
    rw [hsum] at h2
    have a1 := (ocfold_eq_max_iff _).1 h1
    have a2 := (ocfold_eq_max_iff _).1 h2
    omega
  have hm : iph_ihl u.data 0 * 4 = thoff u.data := by unfold thoff; omega
  refine ⟨?_, rd_rev_proto _ h20 (by omega), ?_, hihl, ?_, hstale⟩
  · intro j hj h9
    exact rd_rev_frame _ _ h20 h9 (by unfold thoff; omega)
  · unfold iph_check rd16
    rw [rd_rev_frame _ _ h20 (by omega) (by omega), rd_rev_frame _ _ h20 (by omega) (by omega)]
  · intro hval
    rw [hihl, ip_fast_csum_eq _ _ (bytes_rev _ hb), hm]
    rw [ip_fast_csum_eq _ _ hb, hm] at hval
    have hle := ocfold_le (wordSum (u.data.take (thoff u.data)))
    have hle' := ocfold_le (wordSum ((rev u.data).take (thoff u.data)))
    have := hstale (by omega)
    omega

theorem C16_reverse_ip_checksum_stale_witness :
    WellFormed (dccp_hook defaultConfig g0 scenarioSkb).skb ∧
    ip_fast_csum (dccp_hook defaultConfig g0 scenarioSkb).skb.data 0 5 = 0 ∧
    ip_fast_csum (round_trip defaultConfig g0 g0 scenarioSkb).skb.data 0
      (iph_ihl (round_trip defaultConfig g0 g0 scenarioSkb).skb.data 0) ≠ 0 :=
  ⟨by decide, by decide,
   (C16_reverse_ip_checksum_stale defaultConfig g0 (dccp_hook defaultConfig g0 scenarioSkb).skb
     (by decide) (by decide) (by decide) (by decide)).2.2.2.2.1 (by decide)⟩

/-! ## Reverse then forward -/

/-- The shape of `dccp_hook` for every initial scratch state: untouched, or a rewrite whose
bytes and `csum_d` value do not depend on that state. -/
theorem dccp_hook_shape (cfg : Config) (skb : SkBuff) :
    (∀ g, dccp_hook cfg g skb = ⟨NF_ACCEPT, skb, g⟩) ∨
    (∃ d c, ∀ g, dccp_hook cfg g skb
      = ⟨NF_ACCEPT, { skb with data := d }, { g with csum_d := c }⟩) := by
  unfold dccp_hook
  cases hn : skb_network_header skb with
  | none => exact Or.inl (fun _ => rfl)
  | some iph =>
    simp only
    by_cases hp : iph_protocol skb.data iph = IPPROTO_DCCP
    · cases ht : dccp_hdr skb with
      | none => simp [hp]
      | some dh =>
        simp only [hp, if_true]
        by_cases hx : dccph_x skb.data dh = 0
        · simp [hx]
        · by_cases hg : ports_out_of_range cfg skb.data dh = true
          · simp [hx, hg]
          · right
            exact ⟨_, _, fun g => by simp only [hx, hg, if_false]; rfl⟩
    · simp [hp]

/-- The shape of `udp_hook` for every initial scratch state. -/
theorem udp_hook_shape (cfg : Config) (skb : SkBuff) :
    (∀ g, udp_hook cfg g skb = ⟨NF_ACCEPT, skb, g⟩) ∨
    (∀ g, udp_hook cfg g skb = ⟨NF_DROP, skb, g⟩) ∨
    (∃ s v, ∀ g, udp_hook cfg g skb = ⟨NF_DROP, s, { g with csum_v := v }⟩) ∨
    (∃ s v w, ∀ g, udp_hook cfg g skb
      = ⟨NF_ACCEPT, s, { g with csum_v := v, csum_u := w }⟩) ∨
    (∃ s w, ∀ g, udp_hook cfg g skb = ⟨NF_ACCEPT, s, { g with csum_u := w }⟩) := by
  unfold udp_hook
  cases hn : skb_network_header skb with
  | none => exact Or.inl (fun _ => rfl)
  | some iph =>
    simp only
    by_cases hp : iph_protocol skb.data iph = IPPROTO_UDP
    · cases ht : dccp_hdr skb with
      | none => simp [hp]
      | some dh =>
        simp only [hp, if_true]
        by_cases hg : ports_out_of_range cfg skb.data dh = true
        · simp [hg]
        · by_cases hl : (skb_is_nonlinear skb && skb.linearize_fails) = true
          · right; left
            intro g
            simp [hg, hl]
          · simp only [hg, hl, if_false]
            generalize (if skb_is_nonlinear skb = true then skb_linearize skb else skb) = u'
            by_cases hcu : skb_csum_unnecessary u' = true
            · right; right; right; right
              exact ⟨_, _, fun g => by simp only [hcu, Bool.not_true, if_false]; rfl⟩
            · have hcu' : skb_csum_unnecessary u' = false := by simpa using hcu
              by_cases hm : csum_tcpudp_magic (iph_saddr u'.data iph) (iph_daddr u'.data iph)
                  (u32sub (skb_len u') (iph_ihl u'.data iph * 4)) IPPROTO_UDP
                  (skb_checksum u'.data dh (u32sub (skb_len u') (iph_ihl u'.data iph * 4)) 0)
                    = 0
              · right; right; right; left
                exact ⟨_, _, _, fun g => by
                  simp only [hcu', Bool.not_false, if_true, hm, ne_eq, not_true_eq_false,
                    if_false]
                  rfl⟩
              · right; right; left
                exact ⟨_, _, fun g => by
                  simp only [hcu', Bool.not_false, if_true, hm, ne_eq, not_false_eq_true]
                  rfl⟩
    · simp [hp]

/-- C19: independence from scratch state. For every buffer, the verdict and the resulting
buffer of `dccp_hook` and of `udp_hook` are the same for any two initial values of `csum_u`,
`csum_d` and `csum_v`; after a call each scratch variable is either untouched or holds a value
that does not depend on its initial value (it is written before it is read). -/
theorem C19_scratch_independence (cfg : Config) (g g' : Globals) (skb : SkBuff) :
    (dccp_hook cfg g skb).verdict = (dccp_hook cfg g' skb).verdict ∧
    (dccp_hook cfg g skb).skb = (dccp_hook cfg g' skb).skb ∧
    (udp_hook cfg g skb).verdict = (udp_hook cfg g' skb).verdict ∧
    (udp_hook cfg g skb).skb = (udp_hook cfg g' skb).skb ∧
    (dccp_hook cfg g skb).globals.csum_u = g.csum_u ∧
    (dccp_hook cfg g skb).globals.csum_v = g.csum_v ∧
    ((dccp_hook cfg g skb).globals.csum_d = g.csum_d ∧
        (dccp_hook cfg g' skb).globals.csum_d = g'.csum_d ∨
      (dccp_hook cfg g skb).globals.csum_d = (dccp_hook cfg g' skb).globals.csum_d) ∧
    (udp_hook cfg g skb).globals.csum_d = g.csum_d ∧
    ((udp_hook cfg g skb).globals.csum_v = g.csum_v ∧
        (udp_hook cfg g' skb).globals.csum_v = g'.csum_v ∨
      (udp_hook cfg g skb).globals.csum_v = (udp_hook cfg g' skb).globals.csum_v) ∧
    ((udp_hook cfg g skb).globals.csum_u = g.csum_u ∧
        (udp_hook cfg g' skb).globals.csum_u = g'.csum_u ∨
      (udp_hook cfg g skb).globals.csum_u = (udp_hook cfg g' skb).globals.csum_u) := by
  have hd : (dccp_hook cfg g skb).verdict = (dccp_hook cfg g' skb).verdict ∧
      (dccp_hook cfg g skb).skb = (dccp_hook cfg g' skb).skb ∧
      (dccp_hook cfg g skb).globals.csum_u = g.csum_u ∧
      (dccp_hook cfg g skb).globals.csum_v = g.csum_v ∧
      ((dccp_hook cfg g skb).globals.csum_d = g.csum_d ∧
          (dccp_hook cfg g' skb).globals.csum_d = g'.csum_d ∨
        (dccp_hook cfg g skb).globals.csum_d = (dccp_hook cfg g' skb).globals.csum_d) := by
    rcases dccp_hook_shape cfg skb with h | ⟨d, c, h⟩
    · rw [h g, h g']
      exact ⟨rfl, rfl, rfl, rfl, Or.inl ⟨rfl, rfl⟩⟩
    · rw [h g, h g']
      exact ⟨rfl, rfl, rfl, rfl, Or.inr rfl⟩
  have hu : (udp_hook cfg g skb).verdict = (udp_hook cfg g' skb).verdict ∧
      (udp_hook cfg g skb).skb = (udp_hook cfg g' skb).skb ∧
      (udp_hook cfg g skb).globals.csum_d = g.csum_d ∧
      ((udp_hook cfg g skb).globals.csum_v = g.csum_v ∧
          (udp_hook cfg g' skb).globals.csum_v = g'.csum_v ∨
        (udp_hook cfg g skb).globals.csum_v = (udp_hook cfg g' skb).globals.csum_v) ∧
      ((udp_hook cfg g skb).globals.csum_u = g.csum_u ∧
          (udp_hook cfg g' skb).globals.csum_u = g'.csum_u ∨
        (udp_hook cfg g skb).globals.csum_u = (udp_hook cfg g' skb).globals.csum_u) := by
    rcases udp_hook_shape cfg skb with h | h | ⟨s, v, h⟩ | ⟨s, v, w, h⟩ | ⟨s, w, h⟩
    · rw [h g, h g']
      exact ⟨rfl, rfl, rfl, Or.inl ⟨rfl, rfl⟩, Or.inl ⟨rfl, rfl⟩⟩
    · rw [h g, h g']
      exact ⟨rfl, rfl, rfl, Or.inl ⟨rfl, rfl⟩, Or.inl ⟨rfl, rfl⟩⟩
    · rw [h g, h g']
      exact ⟨rfl, rfl, rfl, Or.inr rfl, Or.inl ⟨rfl, rfl⟩⟩
    · rw [h g, h g']
      exact ⟨rfl, rfl, rfl, Or.inr rfl, Or.inr rfl⟩
    · rw [h g, h g']
      exact ⟨rfl, rfl, rfl, Or.inl ⟨rfl, rfl⟩, Or.inr rfl⟩
  exact ⟨hd.1, hd.2.1, hu.1, hu.2.1, hd.2.2.1, hd.2.2.2.1, hd.2.2.2.2, hu.2.2.1, hu.2.2.2.1,
    hu.2.2.2.2⟩

end UDccp
